import Mathlib

/-!
# Shallow embedding of the bfs-fuse filesystem core

This file embeds the C sources `src/bfs.c` (FUSE server) and `src/make_bfs.c`
(formatter) of the bfs-fuse repository into Lean, and proves or refutes the
frozen claims about them.

Modelling conventions:
* A disk block is a byte function `Nat → Nat`; only indices `0 ≤ i < 4096`
  are meaningful.  The disk is `Nat → Block`.
* C `int` values appearing on disk (block pointers, inode numbers, superblock
  fields) are stored little-endian; every value occurring in the modelled
  states is small (`< 2^31`), so signedness never matters and `Nat` is used.
* C loops are embedded as fuel-indexed structural recursions; the fuel passed
  at each call site strictly exceeds the number of iterations the C loop can
  perform (each iteration processes at least one byte), so the fuel-exhausted
  branch is unreachable.
* `time(NULL)` is modelled by an explicit `now : Nat` argument.
* I/O never fails in the model (the backing file is a total function), so the
  C `EIO` paths for failed `read`/`write` syscalls do not arise.
-/

namespace BFS

/-! ## Fixed parameters (src/bfs.c lines 13-29, src/make_bfs.c lines 9-17) -/

def BLOCK_SIZE : Nat := 4096
def MAX_FILES : Nat := 128
def FILENAME_LEN : Nat := 48
def TOTAL_BLOCKS : Nat := 4096
def DIRECT_BLOCKS : Nat := 8
/-- `(DIRECT_BLOCKS + BLOCK_SIZE / sizeof(int)) * BLOCK_SIZE` with `sizeof(int) = 4`. -/
def MAX_FILE_SIZE : Nat := (DIRECT_BLOCKS + BLOCK_SIZE / 4) * BLOCK_SIZE
def BITMAP_BLOCK_START : Nat := 1
def INODE_MAP_BLOCK : Nat := 3
def INODE_TABLE_START : Nat := 4
def INODE_TABLE_BLOCKS : Nat := 8
def ROOT_DIR_BLOCK_START : Nat := 12
def ROOT_DIR_BLOCKS : Nat := 2
def DATA_BLOCK_START : Nat := 14

/-! ## Bytes, blocks, little-endian integers -/

/-- One 4096-byte block, as a byte function. -/
abbrev Block := Nat → Nat

/-- The backing file, block-addressed. -/
abbrev Disk := Nat → Block

def zeroBlock : Block := fun _ => 0

def zeroDisk : Disk := fun _ => zeroBlock

/-- Byte `k` of the little-endian encoding of `v`. -/
def byteOf (v k : Nat) : Nat := v / 256 ^ k % 256

/-- Read the 4-byte little-endian integer stored in `blk` at entry index
`idx` (byte offset `4*idx`); this is the C cast `((int *)blk)[idx]` on a
little-endian host. -/
def decodeInt (blk : Block) (idx : Nat) : Nat :=
  blk (4 * idx) + 256 * blk (4 * idx + 1) + 65536 * blk (4 * idx + 2) +
    16777216 * blk (4 * idx + 3)

/-- Read the 4-byte little-endian integer at byte offset `off`. -/
def decodeIntAt (blk : Block) (off : Nat) : Nat :=
  blk off + 256 * blk (off + 1) + 65536 * blk (off + 2) + 16777216 * blk (off + 3)

/-- Overwrite entry `idx` of the int array stored in `blk` with `v`
(little-endian), the C assignment `((int *)blk)[idx] = v`. -/
def writeIntLE (blk : Block) (idx v : Nat) : Block := fun b =>
  if b = 4 * idx then byteOf v 0
  else if b = 4 * idx + 1 then byteOf v 1
  else if b = 4 * idx + 2 then byteOf v 2
  else if b = 4 * idx + 3 then byteOf v 3
  else blk b

/-- Bit `i` of a byte buffer: `(bytes[i/8] >> (i%8)) & 1`. -/
def bitOf (blk : Block) (i : Nat) : Bool :=
  blk (i / 8) / 2 ^ (i % 8) % 2 = 1

/-- Pack eight bits into the byte at index `b` of a bit function. -/
def packByte (bits : Nat → Bool) (b : Nat) : Nat :=
  (if bits (8 * b) then 1 else 0) + (if bits (8 * b + 1) then 2 else 0) +
  (if bits (8 * b + 2) then 4 else 0) + (if bits (8 * b + 3) then 8 else 0) +
  (if bits (8 * b + 4) then 16 else 0) + (if bits (8 * b + 5) then 32 else 0) +
  (if bits (8 * b + 6) then 64 else 0) + (if bits (8 * b + 7) then 128 else 0)

/-- Store `v` at index `i` of a table modelled as a function (a C array
store). -/
def updFun {α : Type} (f : Nat → α) (i : Nat) (v : α) : Nat → α := fun m =>
  if m = i then v else f m

/-- Replace block `n` of the disk. -/
def updBlock (d : Disk) (n : Nat) (blk : Block) : Disk := updFun d n blk

/-! ## Generic scans (the C `for` searches) -/

/-- Scan indices `i, i+1, …, i+fuel-1`, returning the first one satisfying
`p`.  Embeds the C pattern `for (...) if (p(i)) return i;`. -/
def scanIdx (p : Nat → Bool) : Nat → Nat → Option Nat
  | _, 0 => none
  | i, fuel + 1 => if p i then some i else scanIdx p (i + 1) fuel

theorem scanIdx_eq_some {p : Nat → Bool} {i fuel j : Nat}
    (h : scanIdx p i fuel = some j) :
    p j = true ∧ i ≤ j ∧ j < i + fuel ∧ ∀ k, i ≤ k → k < j → p k = false := by
  induction fuel generalizing i with
  | zero => simp [scanIdx] at h
  | succ n ih =>
    by_cases hp : p i = true
    · simp [scanIdx, hp] at h
      subst h
      exact ⟨hp, Nat.le_refl _, by omega, fun k hk hk2 => absurd hk2 (by omega)⟩
    · have hp' : p i = false := by
        cases hpi : p i
        · rfl
        · exact absurd hpi hp
      simp [scanIdx, hp'] at h
      obtain ⟨hj, hij, hjf, hmin⟩ := ih h
      refine ⟨hj, by omega, by omega, fun k hk hk2 => ?_⟩
      rcases Nat.eq_or_lt_of_le hk with hk | hk
      · exact hk ▸ hp'
      · exact hmin k hk hk2

theorem scanIdx_none_of {p : Nat → Bool} {i fuel : Nat}
    (h : ∀ k, i ≤ k → k < i + fuel → p k = false) :
    scanIdx p i fuel = none := by
  induction fuel generalizing i with
  | zero => rfl
  | succ n ih =>
    have hp : p i = false := h i (Nat.le_refl _) (by omega)
    simp [scanIdx, hp]
    exact ih fun k hk hk2 => h k (by omega) (by omega)

theorem scanIdx_some_of {p : Nat → Bool} {i fuel j : Nat}
    (hij : i ≤ j) (hjf : j < i + fuel) (hj : p j = true)
    (hmin : ∀ k, i ≤ k → k < j → p k = false) :
    scanIdx p i fuel = some j := by
  induction fuel generalizing i with
  | zero => omega
  | succ n ih =>
    rcases Nat.eq_or_lt_of_le hij with h | h
    · subst h
      simp [scanIdx, hj]
    · have hp : p i = false := hmin i (Nat.le_refl _) h
      simp [scanIdx, hp]
      exact ih (by omega) (by omega) fun k hk hk2 => hmin k (by omega) hk2

theorem scanIdx_isSome_of {p : Nat → Bool} {i fuel j : Nat}
    (hij : i ≤ j) (hjf : j < i + fuel) (hj : p j = true) :
    ∃ j0, scanIdx p i fuel = some j0 ∧ p j0 = true := by
  induction fuel generalizing i with
  | zero => omega
  | succ n ih =>
    by_cases hp : p i = true
    · exact ⟨i, by simp [scanIdx, hp], hp⟩
    · have hp' : p i = false := by
        cases hpi : p i
        · rfl
        · exact absurd hpi hp
      have hne : i ≠ j := fun h => hp (h ▸ hj)
      simp only [scanIdx, hp', Bool.false_eq_true, if_false]
      exact ih (by omega) (by omega)

/-! ## C strings -/

/-- Decode a NUL-terminated C string of at most `fuel` bytes starting at
index `k` of a byte function. -/
def cstrAux (f : Nat → Nat) : Nat → Nat → List Nat
  | _, 0 => []
  | k, fuel + 1 => if f k = 0 then [] else f k :: cstrAux f (k + 1) fuel

/-- The C string held in the first `fuel` bytes of `f`. -/
def cstr (f : Nat → Nat) (fuel : Nat) : List Nat := cstrAux f 0 fuel

/-! ## Data model (src/bfs.c lines 31-53)

Directory-entry names are modelled by their logical C-string content: the
bytes before the terminating NUL (`strcmp` equality is then list equality,
and a `memset`-zeroed entry has the empty name).  `inode_num` is a C `int`;
it is non-negative in every state considered here, so it is a `Nat` and the
C bounds check `inode_idx < 0 || inode_idx >= MAX_FILES` on
`inode_idx = inode_num - 1` is rendered as
`inode_num < 1 ∨ MAX_FILES < inode_num`. -/

structure DirectoryEntry where
  name : List Nat
  inode_num : Nat
  deriving DecidableEq, Repr

structure Inode where
  size : Nat
  block_pointers : List Nat   -- always length 8 (DIRECT_BLOCKS)
  indirect_pointer : Nat
  creation_time : Nat
  modification_time : Nat
  permissions : Nat
  ref_count : Nat
  deriving DecidableEq, Repr

def zeroInode : Inode :=
  { size := 0, block_pointers := [0, 0, 0, 0, 0, 0, 0, 0], indirect_pointer := 0,
    creation_time := 0, modification_time := 0, permissions := 0, ref_count := 0 }

/-- The global mutable state of src/bfs.c: the backing-file descriptor's
contents (`disk`) and the four in-memory tables (lines 49-53). -/
structure FSState where
  disk : Disk
  bitmap : Nat → Bool
  inode_map : Nat → Bool
  inodes : Nat → Inode
  directory : Nat → DirectoryEntry

/-! ## Helper functions of src/bfs.c -/

/-- `find_file` (lines 112-122): first directory index whose entry is live
and has the given name. -/
def find_file (st : FSState) (name : List Nat) : Option Nat :=
  scanIdx (fun i => decide (0 < (st.directory i).inode_num) &&
                    decide ((st.directory i).name = name)) 0 MAX_FILES

/-- `find_free_inode` (lines 128-141): first clear inode-map bit; marks it
used and returns the 1-based inode number together with the updated map. -/
def find_free_inode (im : Nat → Bool) : Option (Nat × (Nat → Bool)) :=
  match scanIdx (fun i => !im i) 0 MAX_FILES with
  | none => none
  | some i => some (i + 1, updFun im i true)

/-- `release_inode` (lines 146-154). -/
def release_inode (im : Nat → Bool) (inode_num : Nat) : Nat → Bool :=
  if inode_num < 1 ∨ MAX_FILES < inode_num then im
  else updFun im (inode_num - 1) false

/-- The byte image of the in-memory data-block bitmap (its first
`BLOCK_SIZE` bytes, the ones `write_block(BITMAP_BLOCK_START, bitmap)`
persists). -/
def bitmapBytes (bm : Nat → Bool) : Block := fun b => packByte bm b

/-- `find_free_block` (lines 285-305): scan the data bitmap from
`DATA_BLOCK_START`, set the first clear bit, persist the bitmap block
(always block 1 for the block range in use), and return the block number. -/
def find_free_block (st : FSState) : Option (Nat × FSState) :=
  match scanIdx (fun i => !st.bitmap i) DATA_BLOCK_START (TOTAL_BLOCKS - DATA_BLOCK_START) with
  | none => none
  | some i =>
    let bm := updFun st.bitmap i true
    some (i, { st with bitmap := bm,
                       disk := updBlock st.disk BITMAP_BLOCK_START (bitmapBytes bm) })

/-- `release_block` (lines 310-320). -/
def release_block (st : FSState) (block_num : Nat) : FSState :=
  if block_num < DATA_BLOCK_START ∨ TOTAL_BLOCKS ≤ block_num then st
  else
    let bm := updFun st.bitmap block_num false
    { st with bitmap := bm,
              disk := updBlock st.disk BITMAP_BLOCK_START (bitmapBytes bm) }

/-! ## Metadata persistence (`save_metadata`, lines 334-382) -/

/-- The 64-byte on-disk image of an inode record (struct layout on x86-64:
`size` at 0, `block_pointers` at 4, `indirect_pointer` at 36, the two
`time_t` fields at 40 and 48, `permissions` at 56, `ref_count` at 60). -/
def inodeBytes (ino : Inode) (k : Nat) : Nat :=
  if k < 4 then byteOf ino.size k
  else if k < 36 then byteOf (ino.block_pointers.getD ((k - 4) / 4) 0) ((k - 4) % 4)
  else if k < 40 then byteOf ino.indirect_pointer (k - 36)
  else if k < 48 then byteOf ino.creation_time (k - 40)
  else if k < 56 then byteOf ino.modification_time (k - 48)
  else if k < 60 then byteOf ino.permissions (k - 56)
  else if k < 64 then byteOf ino.ref_count (k - 60)
  else 0

/-- The 52-byte on-disk image of a directory entry: 48 name bytes
(NUL-padded) then the 4-byte inode number. -/
def entryBytes (e : DirectoryEntry) (k : Nat) : Nat :=
  if k < FILENAME_LEN then e.name.getD k 0
  else if k < 52 then byteOf e.inode_num (k - FILENAME_LEN)
  else 0

/-- Inode-table block `blk` (0-based among the 8 table blocks) as written by
`save_metadata`: 64 packed inodes, zero past `MAX_FILES`. -/
def inodeTableBlock (st : FSState) (blk : Nat) : Block := fun o =>
  if o < BLOCK_SIZE then
    (if blk * 64 + o / 64 < MAX_FILES then inodeBytes (st.inodes (blk * 64 + o / 64)) (o % 64) else 0)
  else 0

/-- Root-directory block `blk` (0 or 1) as written by `save_metadata`:
78 packed 52-byte entries (`BLOCK_SIZE / sizeof(DirectoryEntry) = 78`),
trailing bytes zero. -/
def dirTableBlock (st : FSState) (blk : Nat) : Block := fun o =>
  if o < BLOCK_SIZE then
    (if o / 52 < 78 ∧ blk * 78 + o / 52 < MAX_FILES then
       entryBytes (st.directory (blk * 78 + o / 52)) (o % 52) else 0)
  else 0

/-- The inode-map byte image persisted by `write_partial_block`
(`sizeof(inode_map) = BLOCK_SIZE`, so the whole block is replaced). -/
def inodeMapBytes (im : Nat → Bool) (old : Block) : Block := fun b =>
  if b < BLOCK_SIZE then packByte im b else old b

/-- `save_metadata` (lines 334-382): persist bitmap block 1, inode-map
block 3, the 8 inode-table blocks, and the 2 root-directory blocks. -/
def save_metadata (st : FSState) : FSState :=
  let d1 := updBlock st.disk BITMAP_BLOCK_START (bitmapBytes st.bitmap)
  let d3 := updBlock d1 INODE_MAP_BLOCK (inodeMapBytes st.inode_map (d1 INODE_MAP_BLOCK))
  let dIT := (List.range INODE_TABLE_BLOCKS).foldl
    (fun d blk => updBlock d (INODE_TABLE_START + blk) (inodeTableBlock st blk)) d3
  let dRD := (List.range ROOT_DIR_BLOCKS).foldl
    (fun d blk => updBlock d (ROOT_DIR_BLOCK_START + blk) (dirTableBlock st blk)) dIT
  { st with disk := dRD }

/-! ## FUSE callbacks

Paths are byte lists (`47` is `'/'`); every callback that resolves a file
uses the basename `path.drop 1`, matching the C `path + 1`.  Error codes are
the negated POSIX values returned by the C code:
ENOENT = 2, EIO = 5, EEXIST = 17, EINVAL = 22, EFBIG = 27, ENOSPC = 28. -/

structure StatData where
  st_mode : Nat
  st_nlink : Nat
  st_size : Nat
  st_atime : Nat
  st_mtime : Nat
  st_ctime : Nat
  deriving DecidableEq, Repr

def S_IFDIR : Nat := 16384
def S_IFREG : Nat := 32768

/-- `bfs_getattr` (lines 389-430). -/
def bfs_getattr (st : FSState) (path : List Nat) : Except Int StatData :=
  if path = [47] then
    .ok { st_mode := Nat.lor S_IFDIR 493, st_nlink := 2, st_size := 0,
          st_atime := 0, st_mtime := 0, st_ctime := 0 }
  else
    match find_file st (path.drop 1) with
    | none => .error (-2)
    | some i =>
      let inode_num := (st.directory i).inode_num
      if MAX_FILES < inode_num then .error (-5)
      else
        let ino := st.inodes (inode_num - 1)
        .ok { st_mode := Nat.lor S_IFREG ino.permissions, st_nlink := ino.ref_count,
              st_size := ino.size, st_atime := ino.creation_time,
              st_mtime := ino.modification_time, st_ctime := ino.modification_time }

/-- `bfs_readdir` (lines 475-506): the list of names handed to `filler`,
in emission order. -/
def bfs_readdir (st : FSState) (path : List Nat) : Except Int (List (List Nat)) :=
  if path = [47] then
    .ok ([[46], [46, 46]] ++
      ((List.range MAX_FILES).filter
        (fun i => decide (0 < (st.directory i).inode_num))).map
        (fun i => (st.directory i).name))
  else .error (-2)

/-- `bfs_create` (lines 511-569). -/
def bfs_create (st : FSState) (path : List Nat) (mode now : Nat) : FSState × Int :=
  match find_file st (path.drop 1) with
  | some _ => (st, -17)
  | none =>
    match scanIdx (fun i => decide ((st.directory i).inode_num = 0)) 0 MAX_FILES with
    | none => (st, -28)
    | some dir_idx =>
      match find_free_inode st.inode_map with
      | none => (st, -28)
      | some (inode_num, im) =>
        let ino : Inode :=
          { size := 0, block_pointers := [0, 0, 0, 0, 0, 0, 0, 0], indirect_pointer := 0,
            creation_time := now, modification_time := now,
            permissions := mode, ref_count := 1 }
        let st1 := { st with
          inode_map := im,
          inodes := updFun st.inodes (inode_num - 1) ino,
          directory := updFun st.directory dir_idx
            { name := (path.drop 1).take (FILENAME_LEN - 1), inode_num := inode_num } }
        (save_metadata st1, 0)

/-- `bfs_utimens` (lines 1013-1036): `creation_time := tv[0]`,
`modification_time := tv[1]`. -/
def bfs_utimens (st : FSState) (path : List Nat) (atime mtime : Nat) : FSState × Int :=
  match find_file st (path.drop 1) with
  | none => (st, -2)
  | some i =>
    let idx := (st.directory i).inode_num - 1
    let ino1 := { (st.inodes idx) with creation_time := atime, modification_time := mtime }
    let st1 := { st with inodes := updFun st.inodes idx ino1 }
    (save_metadata st1, 0)

/-- The direct-pointer release loop of `bfs_unlink` (lines 658-665). -/
def releaseDirectLoop (st : FSState) (idx : Nat) : FSState :=
  (List.range DIRECT_BLOCKS).foldl (fun s j =>
    let ino := s.inodes idx
    if ino.block_pointers.getD j 0 ≠ 0 then
      let s2 := release_block s (ino.block_pointers.getD j 0)
      let ino2 := { ino with block_pointers := ino.block_pointers.set j 0 }
      { s2 with inodes := updFun s2.inodes idx ino2 }
    else s) st

/-- The indirect-entry release loop of `bfs_unlink` (lines 677-685): frees
every nonzero entry and zeroes it in the local buffer. -/
def releaseIndirectLoop (st : FSState) (buf : Block) : FSState × Block :=
  (List.range (BLOCK_SIZE / 4)).foldl (fun acc j =>
    let v := decodeInt acc.2 j
    if v ≠ 0 then (release_block acc.1 v, writeIntLE acc.2 j 0)
    else acc) (st, buf)

/-- `bfs_unlink` (lines 637-720).  Note: the directory scan (line 644)
matches on the name alone, with no `inode_num > 0` test, and the final
`write_block(inode->indirect_pointer, indirect_pointers)` (line 693)
happens after `inode->indirect_pointer` was set to 0 (line 690), so it
writes to block 0. -/
def bfs_unlink (st : FSState) (path : List Nat) : FSState × Int :=
  match scanIdx (fun i => decide ((st.directory i).name = path.drop 1)) 0 MAX_FILES with
  | none => (st, -2)
  | some i =>
    let inode_num := (st.directory i).inode_num
    if inode_num < 1 ∨ MAX_FILES < inode_num then (st, -22)
    else
      let idx := inode_num - 1
      let st1 := releaseDirectLoop st idx
      let st2 :=
        if (st1.inodes idx).indirect_pointer ≠ 0 then
          let ip := (st1.inodes idx).indirect_pointer
          let p2 := releaseIndirectLoop st1 (st1.disk ip)
          let st2a := release_block p2.1 ip
          let ino2 := { (st2a.inodes idx) with indirect_pointer := 0 }
          let st2b := { st2a with inodes := updFun st2a.inodes idx ino2 }
          { st2b with disk := updBlock st2b.disk ((st2b.inodes idx).indirect_pointer) p2.2 }
        else st1
      let st3 := { st2 with
        directory := updFun st2.directory i { name := [], inode_num := 0 },
        inodes := updFun st2.inodes idx zeroInode,
        inode_map := release_inode st2.inode_map inode_num }
      (save_metadata st3, 0)

/-! ## Read (lines 725-826) -/

/-- Resolve the physical block of logical block `block_idx` the way the
read loop does; `none` renders the two C `break` statements (unallocated
indirect pointer, or index past the indirect capacity). -/
def resolveRead (st : FSState) (ino : Inode) (block_idx : Nat) : Option Nat :=
  if block_idx < DIRECT_BLOCKS then some (ino.block_pointers.getD block_idx 0)
  else if ino.indirect_pointer = 0 then none
  else if BLOCK_SIZE / 4 ≤ block_idx - DIRECT_BLOCKS then none
  else some (decodeInt (st.disk ino.indirect_pointer) (block_idx - DIRECT_BLOCKS))

/-- The read loop (lines 757-819), fuel-indexed; each iteration copies at
least one byte, so `size + 1` fuel always suffices.  Returns
`(bytes_read, bytes copied into the caller's buffer)`. -/
def readLoopF (st : FSState) (ino : Inode) (size : Nat) :
    Nat → Nat → Nat → List Nat → Nat × List Nat
  | 0, bytes_read, _cur, acc => (bytes_read, acc)
  | fuel + 1, bytes_read, cur, acc =>
    if bytes_read < size then
      let block_off := cur % BLOCK_SIZE
      let btr := min (BLOCK_SIZE - block_off) (size - bytes_read)
      match resolveRead st ino (cur / BLOCK_SIZE) with
      | none => (bytes_read, acc)
      | some ab =>
        let chunk := if ab = 0 then List.replicate btr 0
                     else (List.range btr).map (fun k => st.disk ab (block_off + k))
        readLoopF st ino size fuel (bytes_read + btr) (cur + btr) (acc ++ chunk)
    else (bytes_read, acc)

/-- `bfs_read` (lines 725-826): returns the C return value and the bytes
delivered. -/
def bfs_read (st : FSState) (path : List Nat) (len offset : Nat) : Int × List Nat :=
  match find_file st (path.drop 1) with
  | none => (-2, [])
  | some i =>
    let ino := st.inodes ((st.directory i).inode_num - 1)
    if ino.size ≤ offset then (0, [])
    else
      let len2 := if ino.size < offset + len then ino.size - offset else len
      let r := readLoopF st ino len2 (len2 + 1) 0 offset []
      ((r.1 : Int), r.2)

/-! ## Write (lines 831-995) -/

/-- Lines 885-904: guarantee an allocated indirect block, zero-filling a
fresh one on disk.  `Except.error` carries the early `return`'s state and
code (the C function returns with the global mutations made so far kept). -/
def allocEnsureIndirect (st : FSState) (idx : Nat) : Except (FSState × Int) FSState :=
  if (st.inodes idx).indirect_pointer = 0 then
    match find_free_block st with
    | none => .error (st, -28)
    | some (fb, stA) =>
      let inoA := { (stA.inodes idx) with indirect_pointer := fb }
      let stB := { stA with inodes := updFun stA.inodes idx inoA }
      .ok { stB with disk := updBlock stB.disk fb zeroBlock }
  else .ok st

/-- Lines 906-939: read the indirect block, bounds-check the entry index,
allocate the entry if zero and write the indirect block back. -/
def allocIndirectEntry (st1 : FSState) (idx block_idx : Nat) : Except (FSState × Int) FSState :=
  let ip := (st1.inodes idx).indirect_pointer
  let ib := st1.disk ip
  let iidx := block_idx - DIRECT_BLOCKS
  if BLOCK_SIZE / 4 ≤ iidx then .error (st1, -27)
  else if decodeInt ib iidx = 0 then
    match find_free_block st1 with
    | none => .error (st1, -28)
    | some (fb2, st2) =>
      .ok { st2 with disk := updBlock st2.disk ip (writeIntLE ib iidx fb2) }
  else .ok st1

/-- The allocation phase of one write-loop iteration (lines 869-940). -/
def allocForWrite (st : FSState) (idx block_idx : Nat) : Except (FSState × Int) FSState :=
  if block_idx < DIRECT_BLOCKS then
    if (st.inodes idx).block_pointers.getD block_idx 0 = 0 then
      match find_free_block st with
      | none => .error (st, -28)
      | some (fb, stA) =>
        let inoA := { (stA.inodes idx) with
              block_pointers := (stA.inodes idx).block_pointers.set block_idx fb }
        .ok { stA with inodes := updFun stA.inodes idx inoA }
    else .ok st
  else
    match allocEnsureIndirect st idx with
    | .error r => .error r
    | .ok st1 => allocIndirectEntry st1 idx block_idx

/-- The block resolution after allocation (lines 942-959); the indirect
block is re-read from disk. -/
def resolveWrite (st : FSState) (idx block_idx : Nat) : Nat :=
  if block_idx < DIRECT_BLOCKS then (st.inodes idx).block_pointers.getD block_idx 0
  else decodeInt (st.disk (st.inodes idx).indirect_pointer) (block_idx - DIRECT_BLOCKS)

/-- The post-loop bookkeeping of `bfs_write` (lines 981-994): grow the size
if `current_offset` passed it, stamp `modification_time`, persist. -/
def writeFinish (idx now : Nat) (st : FSState) (bytes_written cur : Nat) : FSState × Int :=
  let ino := st.inodes idx
  let st1 := if ino.size < cur then
      { st with inodes := updFun st.inodes idx { ino with size := cur } }
    else st
  let ino2 := { (st1.inodes idx) with modification_time := now }
  let st2 := { st1 with inodes := updFun st1.inodes idx ino2 }
  (save_metadata st2, (bytes_written : Int))

/-- The write loop (lines 858-979), fuel-indexed; each iteration writes at
least one byte, so `size + 1` fuel always suffices. -/
def writeLoopF (idx : Nat) (buf : Nat → Nat) (size now : Nat) :
    Nat → FSState → Nat → Nat → FSState × Int
  | 0, st, bytes_written, cur =>
    if bytes_written < size then (st, (bytes_written : Int))
    else writeFinish idx now st bytes_written cur
  | fuel + 1, st, bytes_written, cur =>
    if bytes_written < size then
      let block_idx := cur / BLOCK_SIZE
      let block_off := cur % BLOCK_SIZE
      let btw := min (BLOCK_SIZE - block_off) (size - bytes_written)
      match allocForWrite st idx block_idx with
      | .error r => r
      | .ok st1 =>
        let ab := resolveWrite st1 idx block_idx
        let old := st1.disk ab
        let nb : Block := fun o =>
          if block_off ≤ o ∧ o < block_off + btw then buf (bytes_written + (o - block_off))
          else old o
        let st2 := { st1 with disk := updBlock st1.disk ab nb }
        writeLoopF idx buf size now fuel st2 (bytes_written + btw) (cur + btw)
    else writeFinish idx now st bytes_written cur

/-- `bfs_write` (lines 831-995). -/
def bfs_write (st : FSState) (path : List Nat) (buf : Nat → Nat) (len offset now : Nat) :
    FSState × Int :=
  match find_file st (path.drop 1) with
  | none => (st, -2)
  | some i =>
    let idx := (st.directory i).inode_num - 1
    if MAX_FILE_SIZE < offset + len then (st, -27)
    else writeLoopF idx buf len now (len + 1) st 0 offset

/-! ## The formatter (src/make_bfs.c)

`formatDisk t d0` is the backing file produced by running the formatter at
time `t` on a file whose previous contents are `d0` (a freshly created file
is `zeroDisk`).  The formatter writes blocks 0, 1, 2, 3, 4-11, 12 and
14-4095; block 13 is never written (the root-directory initialisation
writes only block 12). -/

/-- `buffer[i/8] |= (1 << (i % 8))`. -/
def setBitB (blk : Block) (i : Nat) : Block := fun a =>
  if a = i / 8 then Nat.lor (blk (i / 8)) (2 ^ (i % 8)) else blk a

/-- The bitmap block written to blocks 1 and 2: bits 0..13 set on a zeroed
buffer (make_bfs.c lines 92-103). -/
def fmtBitmapBlock : Block := (List.range 14).foldl setBitB zeroBlock

/-- The inode-map block written to block 3: `buffer[0] |= 0x01` on a zeroed
buffer (lines 106-113). -/
def fmtInodeMapBlock : Block := fun a => if a = 0 then 1 else 0

/-- The superblock written to block 0 (lines 77-89):
`{total_blocks = 4096, block_size = 4096, inode_count = 128,
root_dir_block = 12}` packed as four ints at offsets 0,4,8,12 on a zeroed
buffer. -/
def sbBlock : Block :=
  writeIntLE (writeIntLE (writeIntLE (writeIntLE zeroBlock 0 TOTAL_BLOCKS)
    1 BLOCK_SIZE) 2 MAX_FILES) 3 ROOT_DIR_BLOCK_START

/-- Inode 1 (the root directory) as initialised by the formatter
(lines 119-126). -/
def rootInode (t : Nat) : Inode :=
  { size := 0, block_pointers := [12, 13, 0, 0, 0, 0, 0, 0], indirect_pointer := 0,
    creation_time := t, modification_time := t, permissions := 493, ref_count := 2 }

/-- The first inode-table block (block 4): the root inode at offset 0, the
63 further zeroed inode records after it (lines 129-145). -/
def fmtInodeBlock (t : Nat) : Block := fun o =>
  if o < 64 then inodeBytes (rootInode t) o else 0

/-- The first root-directory block (block 12): entries "." and ".." both
with inode 1, trailing bytes zero (lines 149-157). -/
def fmtRootDirBlock : Block := fun o =>
  if o < 52 then entryBytes { name := [46], inode_num := 1 } o
  else if o < 104 then entryBytes { name := [46, 46], inode_num := 1 } (o - 52)
  else 0

/-- The whole formatted backing file (make_bfs.c `main`). -/
def formatDisk (t : Nat) (d0 : Disk) : Disk := fun m =>
  if m = 0 then sbBlock
  else if m = 1 then fmtBitmapBlock
  else if m = 2 then fmtBitmapBlock
  else if m = 3 then fmtInodeMapBlock
  else if m = 4 then fmtInodeBlock t
  else if 5 ≤ m ∧ m ≤ 11 then zeroBlock
  else if m = 12 then fmtRootDirBlock
  else if m = 13 then d0 13
  else if m < TOTAL_BLOCKS then zeroBlock
  else d0 m

/-! ## Mount-time metadata load (src/bfs.c lines 159-212 and `main`)

The root-directory load (lines 196-209) calls
`read_block(ROOT_DIR_BLOCK_START + block, &directory[start_idx + i])` for
every entry index: each call copies a full 4096-byte block over the memory
starting at one 52-byte directory slot
(`max_dir_entries_per_block = BLOCK_SIZE / sizeof(DirectoryEntry) = 78`).
`dirMem` replays those overlapping writes, in loop order, over the byte
image of the `directory` array (zero-initialised, as a C global). -/

/-- The `(block, i)` iteration pairs of the directory-load double loop:
block 0 with `i < 78`, block 1 with `78 + i < 128`. -/
def dirLoadWrites : List (Nat × Nat) :=
  ((List.range 78).map (fun i => (0, i))) ++ ((List.range 50).map (fun i => (1, i)))

/-- The byte image of the in-memory `directory` array after the load. -/
def dirMem (b12 b13 : Block) : Nat → Nat :=
  dirLoadWrites.foldl (fun mem w =>
    let dst := (w.1 * 78 + w.2) * 52
    fun a => if dst ≤ a ∧ a < dst + BLOCK_SIZE then
               (if w.1 = 0 then b12 else b13) (a - dst)
             else mem a)
    (fun _ => 0)

/-- Decode directory slot `j` from the byte image of the array. -/
def decodeDirEntry (mem : Nat → Nat) (j : Nat) : DirectoryEntry :=
  { name := cstr (fun k => mem (52 * j + k)) FILENAME_LEN,
    inode_num := decodeIntAt mem (52 * j + 48) }

/-- Read the 8-byte little-endian integer at byte offset `off` (a `time_t`
field). -/
def decode8At (blk : Block) (off : Nat) : Nat :=
  blk off + 256 * blk (off + 1) + 65536 * blk (off + 2) + 16777216 * blk (off + 3) +
  4294967296 * blk (off + 4) + 1099511627776 * blk (off + 5) +
  281474976710656 * blk (off + 6) + 72057594037927936 * blk (off + 7)

/-- Decode one 64-byte inode record at byte offset `off` of a table block
(the `memcpy` of lines 186-193). -/
def decodeInode (blk : Block) (off : Nat) : Inode :=
  { size := decodeIntAt blk off,
    block_pointers := [decodeIntAt blk (off + 4), decodeIntAt blk (off + 8),
      decodeIntAt blk (off + 12), decodeIntAt blk (off + 16), decodeIntAt blk (off + 20),
      decodeIntAt blk (off + 24), decodeIntAt blk (off + 28), decodeIntAt blk (off + 32)],
    indirect_pointer := decodeIntAt blk (off + 36),
    creation_time := decode8At blk (off + 40),
    modification_time := decode8At blk (off + 48),
    permissions := decodeIntAt blk (off + 56),
    ref_count := decodeIntAt blk (off + 60) }

/-- `initialize_inodes_and_directory` (lines 159-212): the in-memory state
right after the metadata load.  Only one block is read into the two-block
`bitmap` array (line 164), so bits past `8 * BLOCK_SIZE` keep their zero
initial value; the same holds for the `inode_map`. -/
def loadState (disk : Disk) : FSState :=
  { disk := disk,
    bitmap := fun b => if b < 8 * BLOCK_SIZE then bitOf (disk BITMAP_BLOCK_START) b else false,
    inode_map := fun i => if i < 8 * BLOCK_SIZE then bitOf (disk INODE_MAP_BLOCK) i else false,
    inodes := fun j => decodeInode (disk (INODE_TABLE_START + j / 64)) (64 * (j % 64)),
    directory := fun j => decodeDirEntry (dirMem (disk ROOT_DIR_BLOCK_START)
      (disk (ROOT_DIR_BLOCK_START + 1))) j }

/-- The pre-service part of `main` (src/bfs.c lines 1040-1071): open the
backing file, require its size to be at least `TOTAL_BLOCKS * BLOCK_SIZE`
bytes (aborting otherwise), then load the metadata.  No superblock read or
validation occurs. -/
def bfs_mount (disk : Disk) (fileSize : Nat) : Option FSState :=
  if fileSize < TOTAL_BLOCKS * BLOCK_SIZE then none
  else some (loadState disk)

/-- A freshly formatted (at time `t`, onto a fresh zero backing file) and
mounted filesystem. -/
def freshMounted (t : Nat) : FSState := loadState (formatDisk t zeroDisk)

/-! ## Basic lemmas -/

theorem updFun_self {α : Type} (f : Nat → α) (i : Nat) (v : α) : updFun f i v i = v := by
  simp [updFun]

theorem updFun_ne {α : Type} (f : Nat → α) {i m : Nat} (v : α) (h : m ≠ i) :
    updFun f i v m = f m := by
  simp [updFun, h]

theorem updBlock_self (d : Disk) (n : Nat) (blk : Block) : updBlock d n blk n = blk :=
  updFun_self d n blk

theorem updBlock_ne (d : Disk) {n : Nat} (blk : Block) {m : Nat} (h : m ≠ n) :
    updBlock d n blk m = d m :=
  updFun_ne d blk h

theorem foldl_updBlock_out {g : Nat → Block} {s : Nat} :
    ∀ (k : Nat) (d : Disk) (b : Nat), b < s ∨ s + k ≤ b →
      ((List.range k).foldl (fun d2 blk => updBlock d2 (s + blk) (g blk)) d) b = d b := by
  intro k
  induction k with
  | zero => intro d b _; rfl
  | succ m ih =>
    intro d b hb
    rw [List.range_succ, List.foldl_append]
    simp only [List.foldl_cons, List.foldl_nil]
    rw [updBlock_ne _ _ (by omega)]
    exact ih d b (by omega)

theorem save_metadata_inodes (st : FSState) : (save_metadata st).inodes = st.inodes := rfl

theorem save_metadata_directory (st : FSState) :
    (save_metadata st).directory = st.directory := rfl

theorem save_metadata_bitmap (st : FSState) : (save_metadata st).bitmap = st.bitmap := rfl

theorem save_metadata_inode_map (st : FSState) :
    (save_metadata st).inode_map = st.inode_map := rfl

/-- `save_metadata` writes only blocks 1, 3, 4-11 and 12-13. -/
theorem save_metadata_disk_out (st : FSState) {b : Nat}
    (h : b = 0 ∨ b = 2 ∨ 14 ≤ b) :
    (save_metadata st).disk b = st.disk b := by
  show ((List.range 2).foldl (fun d2 blk => updBlock d2 (12 + blk) (dirTableBlock st blk))
    ((List.range 8).foldl (fun d2 blk => updBlock d2 (4 + blk) (inodeTableBlock st blk))
      (updBlock (updBlock st.disk 1 (bitmapBytes st.bitmap)) 3 _))) b = st.disk b
  rw [foldl_updBlock_out 2 _ b (by omega), foldl_updBlock_out 8 _ b (by omega),
    updBlock_ne _ _ (by omega : b ≠ 3), updBlock_ne _ _ (by omega : b ≠ 1)]

/-- Recomposing a 4-byte little-endian value. -/
theorem byte_recompose {v : Nat} (h : v < 4294967296) :
    byteOf v 0 + 256 * byteOf v 1 + 65536 * byteOf v 2 + 16777216 * byteOf v 3 = v := by
  unfold byteOf
  simp only [pow_zero, pow_one, Nat.div_one,
    show (256 : Nat) ^ 2 = 65536 from rfl, show (256 : Nat) ^ 3 = 16777216 from rfl]
  omega

theorem writeIntLE_at0 (blk : Block) (idx v : Nat) :
    writeIntLE blk idx v (4 * idx) = byteOf v 0 := by
  unfold writeIntLE
  rw [if_pos rfl]

theorem writeIntLE_at1 (blk : Block) (idx v : Nat) :
    writeIntLE blk idx v (4 * idx + 1) = byteOf v 1 := by
  unfold writeIntLE
  rw [if_neg (by omega), if_pos rfl]

theorem writeIntLE_at2 (blk : Block) (idx v : Nat) :
    writeIntLE blk idx v (4 * idx + 2) = byteOf v 2 := by
  unfold writeIntLE
  rw [if_neg (by omega), if_neg (by omega), if_pos rfl]

theorem writeIntLE_at3 (blk : Block) (idx v : Nat) :
    writeIntLE blk idx v (4 * idx + 3) = byteOf v 3 := by
  unfold writeIntLE
  rw [if_neg (by omega), if_neg (by omega), if_neg (by omega), if_pos rfl]

theorem writeIntLE_out (blk : Block) {idx v b : Nat}
    (h0 : b ≠ 4 * idx) (h1 : b ≠ 4 * idx + 1) (h2 : b ≠ 4 * idx + 2)
    (h3 : b ≠ 4 * idx + 3) :
    writeIntLE blk idx v b = blk b := by
  unfold writeIntLE
  rw [if_neg h0, if_neg h1, if_neg h2, if_neg h3]

theorem decodeInt_writeIntLE_self (blk : Block) {idx v : Nat} (h : v < 4294967296) :
    decodeInt (writeIntLE blk idx v) idx = v := by
  unfold decodeInt
  rw [writeIntLE_at0, writeIntLE_at1, writeIntLE_at2, writeIntLE_at3]
  exact byte_recompose h

theorem decodeInt_writeIntLE_ne (blk : Block) {idx idx2 v : Nat} (h : idx2 ≠ idx) :
    decodeInt (writeIntLE blk idx v) idx2 = decodeInt blk idx2 := by
  unfold decodeInt
  rw [writeIntLE_out blk (by omega) (by omega) (by omega) (by omega),
    writeIntLE_out blk (by omega) (by omega) (by omega) (by omega),
    writeIntLE_out blk (by omega) (by omega) (by omega) (by omega),
    writeIntLE_out blk (by omega) (by omega) (by omega) (by omega)]

/-! ## The freshly formatted and mounted state -/

theorem freshMounted_directory (t : Nat) :
    (freshMounted t).directory = fun j => decodeDirEntry (dirMem fmtRootDirBlock zeroBlock) j :=
  rfl

set_option maxRecDepth 100000 in
/-- After the buggy per-entry block-sized reads, every one of the slots
0..77 holds the first entry of block 12 and every one of the slots 78..127
holds the first entry of block 13. -/
theorem fresh_dir_entries : ∀ j, j < 128 →
    decodeDirEntry (dirMem fmtRootDirBlock zeroBlock) j =
      if j < 78 then { name := [46], inode_num := 1 }
      else { name := [], inode_num := 0 } := by decide

theorem freshMounted_dir_low (t : Nat) {j : Nat} (h : j < 78) :
    (freshMounted t).directory j = { name := [46], inode_num := 1 } := by
  rw [freshMounted_directory]
  have := fresh_dir_entries j (by omega)
  rwa [if_pos h] at this

theorem freshMounted_dir_high (t : Nat) {j : Nat} (h78 : 78 ≤ j) (h : j < 128) :
    (freshMounted t).directory j = { name := [], inode_num := 0 } := by
  rw [freshMounted_directory]
  have := fresh_dir_entries j h
  rwa [if_neg (by omega)] at this

set_option maxRecDepth 100000 in
theorem freshMounted_inode1 (t : Nat) : (freshMounted t).inodes 1 = zeroInode := rfl

set_option maxRecDepth 10000 in
/-- Bytes 0 and 1 of the formatter bitmap block. -/
theorem fmtBitmapBlock_byte0 : fmtBitmapBlock 0 = 255 := by decide

set_option maxRecDepth 10000 in
theorem fmtBitmapBlock_byte1 : fmtBitmapBlock 1 = 63 := by decide

theorem setBit_foldl_out : ∀ (L : List Nat) (blk : Block) (a : Nat),
    (∀ i ∈ L, i / 8 ≠ a) → (L.foldl setBitB blk) a = blk a := by
  intro L
  induction L with
  | nil => intro blk a _; rfl
  | cons x xs ih =>
    intro blk a h
    simp only [List.foldl_cons]
    rw [ih _ _ (fun i hi => h i (List.mem_cons_of_mem x hi))]
    exact if_neg (fun hc => h x (List.mem_cons_self x xs) hc.symm)

theorem fmtBitmapBlock_byte_ge {a : Nat} (h : 2 ≤ a) : fmtBitmapBlock a = 0 := by
  unfold fmtBitmapBlock
  rw [setBit_foldl_out _ _ _ (fun i hi => by
    have : i < 14 := List.mem_range.mp hi
    omega)]
  rfl

set_option maxRecDepth 10000 in
theorem bitOf_fmtBitmapBlock : ∀ b, bitOf fmtBitmapBlock b = decide (b < 14) := by
  intro b
  by_cases hb : b < 16
  · interval_cases b <;> decide
  · unfold bitOf
    rw [fmtBitmapBlock_byte_ge (by omega)]
    rw [decide_eq_false (show ¬ (0 / 2 ^ (b % 8) % 2 = 1) by simp)]
    rw [decide_eq_false (show ¬ b < 14 by omega)]

theorem freshMounted_bitmap (t : Nat) :
    (freshMounted t).bitmap = fun b => decide (b < 14) := by
  funext b
  show (if b < 8 * BLOCK_SIZE then bitOf fmtBitmapBlock b else false) = decide (b < 14)
  by_cases hb : b < 8 * BLOCK_SIZE
  · rw [if_pos hb, bitOf_fmtBitmapBlock]
  · rw [if_neg hb]
    have : ¬ b < 14 := by
      have : 8 * BLOCK_SIZE = 32768 := rfl
      omega
    simp [this]

theorem bitOf_fmtInodeMapBlock : ∀ b, bitOf fmtInodeMapBlock b = decide (b = 0) := by
  intro b
  by_cases hb : b < 8
  · interval_cases b <;> decide
  · unfold bitOf fmtInodeMapBlock
    rw [if_neg (by omega : ¬ b / 8 = 0)]
    rw [decide_eq_false (show ¬ (0 / 2 ^ (b % 8) % 2 = 1) by simp)]
    rw [decide_eq_false (show ¬ b = 0 by omega)]

theorem freshMounted_inode_map (t : Nat) :
    (freshMounted t).inode_map = fun b => decide (b = 0) := by
  funext b
  show (if b < 8 * BLOCK_SIZE then bitOf fmtInodeMapBlock b else false) = decide (b = 0)
  by_cases hb : b < 8 * BLOCK_SIZE
  · rw [if_pos hb, bitOf_fmtInodeMapBlock]
  · rw [if_neg hb]
    have : b ≠ 0 := by
      have : 8 * BLOCK_SIZE = 32768 := rfl
      omega
    simp [this]

/-- Blocks 14 and beyond of the freshly loaded state are all zero. -/
theorem freshMounted_disk_high (t : Nat) {b : Nat} (h : 14 ≤ b) :
    (freshMounted t).disk b = zeroBlock := by
  show formatDisk t zeroDisk b = zeroBlock
  unfold formatDisk
  rw [if_neg (show ¬ b = 0 by omega), if_neg (show ¬ b = 1 by omega),
    if_neg (show ¬ b = 2 by omega), if_neg (show ¬ b = 3 by omega),
    if_neg (show ¬ b = 4 by omega), if_neg (show ¬ (5 ≤ b ∧ b ≤ 11) by omega),
    if_neg (show ¬ b = 12 by omega), if_neg (show ¬ b = 13 by omega)]
  by_cases hb : b < TOTAL_BLOCKS
  · rw [if_pos hb]
  · rw [if_neg hb]
    rfl

/-! ## Claim C9: the formatter bitmap -/

set_option maxRecDepth 10000 in
/-- C9 counterexample: bit 14 of the formatted data bitmap is clear (the
formatter sets bits 0..13 only), refuting "bits 0..14 are set". -/
theorem c9_bit14_clear :
    bitOf (formatDisk 0 zeroDisk 1) 14 = false ∧
    bitOf (formatDisk 0 zeroDisk 1) 13 = true := by
  constructor
  · decide
  · decide

/-- C9 (amended): after formatting, bits 0..13 of the data bitmap are set
and every higher bit is clear, identically in both bitmap blocks (1 and 2). -/
theorem c9_format_bitmap (t : Nat) (d0 : Disk) :
    (∀ b, b < 32768 →
      bitOf (formatDisk t d0 1) b = decide (b < 14) ∧
      bitOf (formatDisk t d0 2) b = decide (b < 14)) ∧
    formatDisk t d0 1 = formatDisk t d0 2 := by
  refine ⟨fun b _ => ?_, rfl⟩
  have h1 : formatDisk t d0 1 = fmtBitmapBlock := rfl
  have h2 : formatDisk t d0 2 = fmtBitmapBlock := rfl
  rw [h1, h2]
  exact ⟨bitOf_fmtBitmapBlock b, bitOf_fmtBitmapBlock b⟩

set_option maxRecDepth 10000 in
/-- C9 witness: the amended statement evaluated at format time 0,
bits 13 (set) and 14 (clear). -/
theorem c9_format_bitmap_witness :
    bitOf (formatDisk 0 zeroDisk 1) 13 = true ∧
    bitOf (formatDisk 0 zeroDisk 2) 14 = false := by
  have h := c9_format_bitmap 0 zeroDisk
  have h13 := (h.1 13 (by omega)).1
  have h14 := (h.1 14 (by omega)).2
  rw [h13, h14]
  exact ⟨by decide, by decide⟩

/-! ## Claim C8: mount-time superblock validation -/

/-- A backing file whose superblock field `block_size` is 0 (block 0 all
zero), everything else freshly formatted. -/
def zeroSuperDisk : Disk := updBlock (formatDisk 0 zeroDisk) 0 zeroBlock

/-- C8 counterexample: the superblock of `zeroSuperDisk` fails every
validation the claim describes, yet mount succeeds — `main` never reads
block 0. -/
theorem c8_mount_ignores_superblock :
    decodeIntAt (zeroSuperDisk 0) 4 = 0 ∧
    (bfs_mount zeroSuperDisk (TOTAL_BLOCKS * BLOCK_SIZE)).isSome = true := by
  constructor
  · rfl
  · rfl

/-- C8 (amended): mount aborts exactly when the backing file is smaller
than `TOTAL_BLOCKS * BLOCK_SIZE` bytes; the superblock is never read, so
whether mount succeeds does not depend on block 0 at all. -/
theorem c8_mount_size_check_only (disk : Disk) (fileSize : Nat) (b0 : Block) :
    ((bfs_mount disk fileSize).isSome ↔ TOTAL_BLOCKS * BLOCK_SIZE ≤ fileSize) ∧
    (bfs_mount (updBlock disk 0 b0) fileSize).isSome = (bfs_mount disk fileSize).isSome := by
  unfold bfs_mount
  have h16 : TOTAL_BLOCKS * BLOCK_SIZE = 16777216 := rfl
  by_cases h : fileSize < TOTAL_BLOCKS * BLOCK_SIZE
  · rw [if_pos h, if_pos h]
    refine ⟨?_, rfl⟩
    simp only [Option.isSome_none, Bool.false_eq_true, false_iff]
    rw [h16] at h ⊢
    omega
  · rw [if_neg h, if_neg h]
    refine ⟨?_, rfl⟩
    simp only [Option.isSome_some, true_iff]
    rw [h16] at h ⊢
    omega

/-! ## Claim C4: directory-name uniqueness -/

/-- C4 evaluation at the failing input: immediately after the mount-time
load of a freshly formatted disk, slots 0 and 1 are both live and both
named "." — the block-sized per-entry reads of
`initialize_inodes_and_directory` copied block 12's first entry over every
slot 0..77. -/
theorem c4_duplicate_names (t : Nat) :
    (freshMounted t).directory 0 = { name := [46], inode_num := 1 } ∧
    (freshMounted t).directory 1 = { name := [46], inode_num := 1 } :=
  ⟨freshMounted_dir_low t (by omega), freshMounted_dir_low t (by omega)⟩

/-! ## Claim C5: readdir on a fresh filesystem -/

set_option maxRecDepth 1000000 in
theorem c5_core :
    ([[46], [46, 46]] ++
      ((List.range MAX_FILES).filter
        (fun i => decide (0 < (decodeDirEntry (dirMem fmtRootDirBlock zeroBlock) i).inode_num))).map
        (fun i => (decodeDirEntry (dirMem fmtRootDirBlock zeroBlock) i).name)) =
      [[46], [46, 46]] ++ List.replicate 78 [46] := by decide

/-- C5 evaluation at the failing input: readdir of "/" on a freshly
formatted and mounted disk emits ".", ".." and then 78 further copies of
"." (one per clobbered slot), not just [".", ".."]. -/
theorem c5_readdir_fresh (t : Nat) :
    bfs_readdir (freshMounted t) [47] =
      Except.ok ([[46], [46, 46]] ++ List.replicate 78 [46]) := by
  unfold bfs_readdir
  rw [if_pos rfl]
  simp only [freshMounted_directory]
  exact congrArg Except.ok c5_core

/-! ## Claim C10: unlink matches free slots by empty name -/

/-- C10: in any state with a free (all-zero) directory slot and no live
entry with an empty name, `unlink("/")` (basename "") matches the first
free slot and returns EINVAL — not ENOENT. -/
theorem c10_unlink_empty_name (st : FSState)
    (hfree : ∃ j, j < MAX_FILES ∧ st.directory j = { name := [], inode_num := 0 })
    (hlive : ∀ j, j < MAX_FILES → (st.directory j).name = [] →
      (st.directory j).inode_num = 0) :
    bfs_unlink st [47] = (st, -22) := by
  obtain ⟨j, hj, hentry⟩ := hfree
  have hpj : (fun i => decide ((st.directory i).name = List.drop 1 [47])) j = true := by
    simp [hentry]
  obtain ⟨j0, hscan, hp0⟩ :=
    @scanIdx_isSome_of (fun i => decide ((st.directory i).name = List.drop 1 [47]))
      0 MAX_FILES j (Nat.zero_le j) (by omega) hpj
  have hj0 : j0 < MAX_FILES := (scanIdx_eq_some hscan).2.2.1
  have hname0 : (st.directory j0).name = [] := by simpa using hp0
  have hnum0 : (st.directory j0).inode_num = 0 := hlive j0 hj0 hname0
  unfold bfs_unlink
  split
  · rename_i hnone
    rw [hscan] at hnone
    exact absurd hnone (by simp)
  · rename_i i heq
    rw [hscan] at heq
    have hij : j0 = i := by injection heq
    subst hij
    rw [hnum0]
    simp

/-- C10 witness: the freshly mounted state (slot 78 free), where
`unlink("/")` returns EINVAL. -/
theorem c10_unlink_empty_name_witness :
    (∃ j, j < MAX_FILES ∧
      (freshMounted 0).directory j = { name := [], inode_num := 0 }) ∧
    (bfs_unlink (freshMounted 0) [47]).2 = -22 := by
  have hfree : ∃ j, j < MAX_FILES ∧
      (freshMounted 0).directory j = { name := [], inode_num := 0 } :=
    ⟨78, by decide, freshMounted_dir_high 0 (by omega) (by omega)⟩
  have hlive : ∀ j, j < MAX_FILES → ((freshMounted 0).directory j).name = [] →
      ((freshMounted 0).directory j).inode_num = 0 := by
    intro j hj hname
    by_cases h78 : j < 78
    · rw [freshMounted_dir_low 0 h78] at hname
      exact absurd hname (by simp)
    · rw [freshMounted_dir_high 0 (by omega) hj]
  refine ⟨hfree, ?_⟩
  rw [c10_unlink_empty_name (freshMounted 0) hfree hlive]

/-! ## Claim C3: unlink and the indirect block -/

/-- A mounted-disk state holding one live file "a" (inode 2) whose inode has
`indirect_pointer = 20`; block 20 (the indirect block) holds no entries.
Such a state arises from a write past the direct region followed by holes
being freed, and exercises the indirect branch of `bfs_unlink`. -/
def c3State : FSState :=
  { disk := formatDisk 0 zeroDisk,
    bitmap := fun b => decide (b < 14 ∨ b = 20),
    inode_map := fun b => decide (b = 0 ∨ b = 1),
    inodes := fun j => if j = 1 then
        { size := 0, block_pointers := [0, 0, 0, 0, 0, 0, 0, 0], indirect_pointer := 20,
          creation_time := 0, modification_time := 0, permissions := 493, ref_count := 1 }
      else zeroInode,
    directory := fun j => if j = 0 then { name := [97], inode_num := 2 }
      else { name := [], inode_num := 0 } }

/-- A fold whose step fixes `z` computes to `z`. -/
theorem foldl_fixed {α : Type} (f : α → Nat → α) (z : α) (L : List Nat)
    (hstep : ∀ j ∈ L, f z j = z) : L.foldl f z = z := by
  induction L with
  | nil => rfl
  | cons x xs ih =>
    simp only [List.foldl_cons]
    rw [hstep x (List.mem_cons_self x xs)]
    exact ih (fun j hj => hstep j (List.mem_cons_of_mem x hj))

/-- The indirect-entry release loop is the identity on an all-zero indirect
block (no entries to free, nothing zeroed in the buffer). -/
theorem releaseIndirectLoop_zero (st : FSState) :
    releaseIndirectLoop st zeroBlock = (st, zeroBlock) := by
  unfold releaseIndirectLoop
  exact foldl_fixed _ _ _ (fun j _ => by simp [decodeInt, zeroBlock])

/-- The direct-pointer release loop is the identity when all eight direct
pointers are zero. -/
theorem releaseDirectLoop_zero (st : FSState) (idx : Nat)
    (h : (st.inodes idx).block_pointers = [0, 0, 0, 0, 0, 0, 0, 0]) :
    releaseDirectLoop st idx = st := by
  unfold releaseDirectLoop
  refine foldl_fixed _ _ _ (fun j hj => ?_)
  have hj8 : j < 8 := List.mem_range.mp hj
  simp only [h]
  interval_cases j <;> simp

/-- The state `bfs_unlink` passes to `save_metadata` once the directory
scan has matched slot `i` and the inode bounds check has passed — the body
of lines 646-708 as one value. -/
def unlinkMid (st : FSState) (i : Nat) : FSState :=
  let inode_num := (st.directory i).inode_num
  let idx := inode_num - 1
  let st1 := releaseDirectLoop st idx
  let st2 :=
    if (st1.inodes idx).indirect_pointer ≠ 0 then
      let ip := (st1.inodes idx).indirect_pointer
      let p2 := releaseIndirectLoop st1 (st1.disk ip)
      let st2a := release_block p2.1 ip
      let ino2 := { (st2a.inodes idx) with indirect_pointer := 0 }
      let st2b := { st2a with inodes := updFun st2a.inodes idx ino2 }
      { st2b with disk := updBlock st2b.disk ((st2b.inodes idx).indirect_pointer) p2.2 }
    else st1
  { st2 with
    directory := updFun st2.directory i { name := [], inode_num := 0 },
    inodes := updFun st2.inodes idx zeroInode,
    inode_map := release_inode st2.inode_map inode_num }

theorem bfs_unlink_some (st : FSState) (path : List Nat) (i : Nat)
    (hscan : scanIdx (fun i => decide ((st.directory i).name = path.drop 1)) 0 MAX_FILES =
      some i)
    (hnum : ¬((st.directory i).inode_num < 1 ∨ MAX_FILES < (st.directory i).inode_num)) :
    bfs_unlink st path = (save_metadata (unlinkMid st i), 0) := by
  unfold bfs_unlink
  split
  · rename_i hnone
    rw [hscan] at hnone
    exact absurd hnone (by simp)
  · rename_i j heq
    rw [hscan] at heq
    have hij : i = j := by injection heq
    subst hij
    rw [if_neg hnum]
    rfl

/-- `unlinkMid`'s disk in the indirect case: the cleared buffer is written
to block 0 (the just-zeroed `indirect_pointer`), on top of the state after
freeing the pointed-to blocks. -/
theorem unlinkMid_disk_indirect (st : FSState) (i idx ip : Nat)
    (stD stR : FSState) (buf : Block)
    (hidx : (st.directory i).inode_num - 1 = idx)
    (hD : releaseDirectLoop st idx = stD)
    (hip : (stD.inodes idx).indirect_pointer = ip) (hip0 : ip ≠ 0)
    (hR : releaseIndirectLoop stD (stD.disk ip) = (stR, buf)) :
    (unlinkMid st i).disk = updBlock (release_block stR ip).disk 0 buf := by
  unfold unlinkMid
  dsimp only
  rw [hidx, hD, hip, if_pos hip0, hR]
  dsimp only
  rw [updFun_self]

/-- `release_block` never writes any disk block other than block 1. -/
theorem release_block_disk_ne (st : FSState) (bnum : Nat) {b : Nat} (hb : b ≠ 1) :
    (release_block st bnum).disk b = st.disk b := by
  unfold release_block
  split
  · rfl
  · exact updBlock_ne _ _ hb

theorem c3_scan : scanIdx
    (fun i => decide ((c3State.directory i).name = List.drop 1 [47, 97])) 0 MAX_FILES =
      some 0 := rfl

theorem c3_disk20 : c3State.disk 20 = zeroBlock := rfl

/-- C3 evaluation at the failing input: unlinking a file whose inode has a
nonzero indirect pointer zeroes `inode->indirect_pointer` before the
`write_block` of the cleared pointer array, so the array is written to
block 0 — byte 1 of the superblock (0x10, from block_size 4096) becomes 0,
while the freed indirect block 20 itself is never rewritten.  The claim
says block 0 is left unchanged and the cleared array lands on block 20. -/
theorem c3_unlink_clobbers_superblock :
    c3State.disk 0 1 = 16 ∧
    (bfs_unlink c3State [47, 97]).2 = 0 ∧
    (bfs_unlink c3State [47, 97]).1.disk 0 1 = 0 ∧
    (bfs_unlink c3State [47, 97]).1.disk 20 = c3State.disk 20 := by
  have hD : releaseDirectLoop c3State 1 = c3State := releaseDirectLoop_zero _ _ rfl
  have hR : releaseIndirectLoop c3State (c3State.disk 20) = (c3State, zeroBlock) := by
    rw [c3_disk20]
    exact releaseIndirectLoop_zero c3State
  have hmain := bfs_unlink_some c3State [47, 97] 0 c3_scan (by decide)
  have hdisk := unlinkMid_disk_indirect c3State 0 1 20 c3State c3State zeroBlock
    rfl hD rfl (by decide) hR
  refine ⟨rfl, ?_, ?_, ?_⟩
  · rw [hmain]
  · rw [hmain]
    show (save_metadata (unlinkMid c3State 0)).disk 0 1 = 0
    rw [save_metadata_disk_out _ (Or.inl rfl), hdisk, updBlock_self]
    rfl
  · rw [hmain]
    show (save_metadata (unlinkMid c3State 0)).disk 20 = c3State.disk 20
    rw [save_metadata_disk_out _ (Or.inr (Or.inr (by omega))), hdisk,
      updBlock_ne _ _ (by omega), release_block_disk_ne _ _ (by omega)]

/-! ## Claim C6: getattr -/

def rootStat : StatData :=
  { st_mode := Nat.lor S_IFDIR 493, st_nlink := 2, st_size := 0,
    st_atime := 0, st_mtime := 0, st_ctime := 0 }

/-- C6 (amended): getattr returns directory mode 0755 with nlink 2 for "/";
for a path whose basename matches a live entry (with a valid inode number)
it returns mode = REGULAR | perms, nlink = refcount, size, atime = the
inode's creation time, and mtime = ctime = the inode's MODIFICATION time
(the code sets `st_ctime` from `modification_time`, not the creation time);
ENOENT otherwise. -/
theorem c6_getattr_spec (st : FSState) (path : List Nat) :
    (bfs_getattr st [47] = .ok rootStat) ∧
    (path ≠ [47] → ∀ i, find_file st (path.drop 1) = some i →
      (st.directory i).inode_num ≤ MAX_FILES →
      bfs_getattr st path = .ok
        { st_mode := Nat.lor S_IFREG (st.inodes ((st.directory i).inode_num - 1)).permissions,
          st_nlink := (st.inodes ((st.directory i).inode_num - 1)).ref_count,
          st_size := (st.inodes ((st.directory i).inode_num - 1)).size,
          st_atime := (st.inodes ((st.directory i).inode_num - 1)).creation_time,
          st_mtime := (st.inodes ((st.directory i).inode_num - 1)).modification_time,
          st_ctime := (st.inodes ((st.directory i).inode_num - 1)).modification_time }) ∧
    (path ≠ [47] → find_file st (path.drop 1) = none →
      bfs_getattr st path = .error (-2)) := by
  refine ⟨?_, ?_, ?_⟩
  · unfold bfs_getattr
    rw [if_pos rfl]
    rfl
  · intro hne i hfind hbound
    unfold bfs_getattr
    rw [if_neg hne]
    split
    · rename_i hnone
      rw [hfind] at hnone
      exact absurd hnone (by simp)
    · rename_i j heq
      rw [hfind] at heq
      have hij : i = j := by injection heq
      subst hij
      rw [if_neg (by omega : ¬ MAX_FILES < (st.directory i).inode_num)]
  · intro hne hnone
    unfold bfs_getattr
    rw [if_neg hne]
    split
    · rfl
    · rename_i j heq
      rw [hnone] at heq
      exact absurd heq (by simp)

/-- A live file whose creation and modification times differ (the state a
create at time 100 followed by `utimens(atime=100, mtime=200)` produces):
file "a" at slot 0, inode 1. -/
def c6State : FSState :=
  { disk := zeroDisk, bitmap := fun _ => false, inode_map := fun b => decide (b = 0),
    inodes := fun _ =>
      { size := 0, block_pointers := [0, 0, 0, 0, 0, 0, 0, 0], indirect_pointer := 0,
        creation_time := 100, modification_time := 200, permissions := 33188,
        ref_count := 1 },
    directory := fun j => if j = 0 then { name := [97], inode_num := 1 }
      else { name := [], inode_num := 0 } }

/-- C6 counterexample: for the live file "a", the inode's creation time is
100 but getattr reports `st_ctime = 200` (the modification time), not the
creation time as the claim states; `st_atime` is the creation time. -/
theorem c6_ctime_not_creation :
    (c6State.inodes 0).creation_time = 100 ∧
    bfs_getattr c6State [47, 97] = .ok
      { st_mode := 33188, st_nlink := 1, st_size := 0,
        st_atime := 100, st_mtime := 200, st_ctime := 200 } ∧
    (200 : Nat) ≠ 100 := by
  refine ⟨rfl, ?_, by omega⟩
  rfl

/-- C6 witness: the amended statement applied to `c6State` and "/a". -/
theorem c6_getattr_spec_witness :
    find_file c6State (List.drop 1 [47, 97]) = some 0 ∧
    (c6State.directory 0).inode_num ≤ MAX_FILES ∧
    bfs_getattr c6State [47, 97] = .ok
      { st_mode := 33188, st_nlink := 1, st_size := 0,
        st_atime := 100, st_mtime := 200, st_ctime := 200 } := by
  have hf : find_file c6State (List.drop 1 [47, 97]) = some 0 := by decide
  have h := (c6_getattr_spec c6State [47, 97]).2.1 (by decide) 0 hf (by decide)
  refine ⟨hf, by decide, ?_⟩
  rw [h]
  rfl

/-! ## Claim C2: read semantics -/

/-- The byte the read loop delivers for file offset `a`: zero when the
resolving pointer is 0 (a hole), the disk byte otherwise. -/
def readSpecByte (st : FSState) (ino : Inode) (a : Nat) : Nat :=
  match resolveRead st ino (a / BLOCK_SIZE) with
  | none => 0
  | some ab => if ab = 0 then 0 else st.disk ab (a % BLOCK_SIZE)

theorem range_map_const {n c : Nat} {f : Nat → Nat} (h : ∀ j, j < n → f j = c) :
    (List.range n).map f = List.replicate n c := by
  have hlen : ((List.range n).map f).length = n := by simp
  rw [show List.replicate n c = List.replicate ((List.range n).map f).length c by rw [hlen]]
  apply List.eq_replicate_of_mem
  intro b hb
  obtain ⟨j, hj, rfl⟩ := List.mem_map.mp hb
  exact h j (List.mem_range.mp hj)

/-- As long as every logical block the loop will touch resolves (no break),
the read loop copies exactly `size - bytes_read` further bytes, each one
`readSpecByte`. -/
theorem readLoopF_spec : ∀ (fuel : Nat) (st : FSState) (ino : Inode) (size br cur : Nat)
    (acc : List Nat), br ≤ size → size - br < fuel →
    (∀ a, cur ≤ a → a < cur + (size - br) → (resolveRead st ino (a / BLOCK_SIZE)).isSome) →
    readLoopF st ino size fuel br cur acc =
      (size, acc ++ (List.range (size - br)).map (fun j => readSpecByte st ino (cur + j))) := by
  intro fuel
  induction fuel with
  | zero =>
    intro st ino size br cur acc hbr hf hres
    omega
  | succ f ih =>
    intro st ino size br cur acc hbr hf hres
    have hBS : BLOCK_SIZE = 4096 := rfl
    rw [readLoopF]
    by_cases hlt : br < size
    · rw [if_pos hlt]
      have hres0 := hres cur (Nat.le_refl _) (by omega)
      obtain ⟨ab, hab⟩ := Option.isSome_iff_exists.mp hres0
      have hab4 : resolveRead st ino (cur / 4096) = some ab := hab
      dsimp only
      simp only [hBS]
      rw [hab4]
      dsimp only
      set btr := min (4096 - cur % 4096) (size - br) with hbtr
      clear_value btr
      have hbtr1 : 1 ≤ btr := by omega
      have hbtrle : btr ≤ size - br := by omega
      have hdiv : ∀ j, j < btr → (cur + j) / 4096 = cur / 4096 := by
        intro j hj
        omega
      have hmod : ∀ j, j < btr → (cur + j) % 4096 = cur % 4096 + j := by
        intro j hj
        omega
      have hspec : ∀ j, j < btr → readSpecByte st ino (cur + j) =
          (if ab = 0 then 0 else st.disk ab (cur % 4096 + j)) := by
        intro j hj
        unfold readSpecByte
        rw [hBS, hdiv j hj, hab4]
        show (if ab = 0 then 0 else st.disk ab ((cur + j) % 4096)) = _
        rw [hmod j hj]
      have hsplit : size - br = btr + (size - br - btr) := by omega
      have hrange : (List.range (size - br)).map (fun j => readSpecByte st ino (cur + j)) =
          (List.range btr).map (fun j => readSpecByte st ino (cur + j)) ++
          (List.range (size - br - btr)).map (fun j => readSpecByte st ino ((cur + btr) + j)) := by
        nth_rewrite 1 [hsplit]
        rw [List.range_add, List.map_append, List.map_map]
        congr 1
        apply List.map_congr_left
        intro j _
        show readSpecByte st ino (cur + (btr + j)) = readSpecByte st ino (cur + btr + j)
        rw [Nat.add_assoc]
      have hchunk : (if ab = 0 then List.replicate btr 0
          else (List.range btr).map (fun k => st.disk ab (cur % 4096 + k))) =
          (List.range btr).map (fun j => readSpecByte st ino (cur + j)) := by
        by_cases hab0 : ab = 0
        · rw [if_pos hab0]
          symm
          apply range_map_const
          intro j hj
          rw [hspec j hj, if_pos hab0]
        · rw [if_neg hab0]
          apply List.map_congr_left
          intro j hj
          rw [hspec j (List.mem_range.mp hj), if_neg hab0]
      rw [hchunk]
      have hbrle : br + btr ≤ size := by omega
      have hfuel : size - (br + btr) < f := by omega
      have hres2 : ∀ a, cur + btr ≤ a → a < cur + btr + (size - (br + btr)) →
          (resolveRead st ino (a / BLOCK_SIZE)).isSome := by
        intro a ha1 ha2
        have hsub : size - (br + btr) = size - br - btr := by omega
        rw [hsub] at ha2
        exact hres a (by omega) (by omega)
      rw [ih st ino size (br + btr) (cur + btr) _ hbrle hfuel hres2]
      rw [hrange, List.append_assoc]
      rw [show size - (br + btr) = size - br - btr by omega]
    · rw [if_neg hlt]
      have : br = size := by omega
      subst this
      simp

/-- C2 (amended): for a live file with `size ≤ MAX_FILE_SIZE` whose
indirect pointer is nonzero whenever `size` extends past the direct region:
a read at `offset ≥ size` returns 0 bytes, and otherwise exactly
`min(len, size - offset)` bytes, zero-filling every hole.  (When
`size > DIRECT_BLOCKS * BLOCK_SIZE` and the indirect pointer is 0, the read
loop instead breaks early — see the counterexample.) -/
theorem c2_read_spec (st : FSState) (path : List Nat) (i : Nat) (len offset : Nat)
    (hfind : find_file st (path.drop 1) = some i)
    (hsize : (st.inodes ((st.directory i).inode_num - 1)).size ≤ MAX_FILE_SIZE)
    (hind : 32768 < (st.inodes ((st.directory i).inode_num - 1)).size →
      (st.inodes ((st.directory i).inode_num - 1)).indirect_pointer ≠ 0) :
    ((st.inodes ((st.directory i).inode_num - 1)).size ≤ offset →
      bfs_read st path len offset = (0, [])) ∧
    (offset < (st.inodes ((st.directory i).inode_num - 1)).size →
      bfs_read st path len offset =
        (((min len ((st.inodes ((st.directory i).inode_num - 1)).size - offset) : Nat) : Int),
         (List.range (min len ((st.inodes ((st.directory i).inode_num - 1)).size - offset))).map
           (fun j => readSpecByte st (st.inodes ((st.directory i).inode_num - 1)) (offset + j)))) := by
  have hMFS : MAX_FILE_SIZE = 4227072 := rfl
  constructor
  · intro hoff
    unfold bfs_read
    rw [hfind]
    dsimp only
    rw [if_pos hoff]
  · intro hoff
    unfold bfs_read
    rw [hfind]
    dsimp only
    rw [if_neg (by omega)]
    have hlen2 : (if (st.inodes ((st.directory i).inode_num - 1)).size < offset + len
        then (st.inodes ((st.directory i).inode_num - 1)).size - offset else len) =
        min len ((st.inodes ((st.directory i).inode_num - 1)).size - offset) := by
      split <;> omega
    rw [hlen2]
    have hres : ∀ a, offset ≤ a →
        a < offset + (min len ((st.inodes ((st.directory i).inode_num - 1)).size - offset) - 0) →
        (resolveRead st (st.inodes ((st.directory i).inode_num - 1)) (a / BLOCK_SIZE)).isSome := by
      intro a ha1 ha2
      have haS : a < (st.inodes ((st.directory i).inode_num - 1)).size := by omega
      unfold resolveRead
      by_cases h8 : a / BLOCK_SIZE < DIRECT_BLOCKS
      · rw [if_pos h8]
        rfl
      · rw [if_neg h8]
        have hD : DIRECT_BLOCKS = 8 := rfl
        have hB : BLOCK_SIZE = 4096 := rfl
        rw [hD, hB] at h8
        have h32 : 32768 < (st.inodes ((st.directory i).inode_num - 1)).size := by omega
        rw [if_neg (by simpa using hind h32)]
        rw [if_neg (show ¬ BLOCK_SIZE / 4 ≤ a / BLOCK_SIZE - DIRECT_BLOCKS by
          rw [hD, hB]
          omega)]
        rfl
    rw [readLoopF_spec (min len ((st.inodes ((st.directory i).inode_num - 1)).size - offset) + 1)
      st (st.inodes ((st.directory i).inode_num - 1))
      (min len ((st.inodes ((st.directory i).inode_num - 1)).size - offset)) 0 offset []
      (by omega) (by omega) hres]
    simp

/-- A live 5-byte file backed by block 20 whose bytes at offset `o` are
`o + 10`. -/
def c2Witness : FSState :=
  { disk := fun b => if b = 20 then (fun o => o + 10) else zeroBlock,
    bitmap := fun b => decide (b < 14 ∨ b = 20), inode_map := fun b => decide (b = 0),
    inodes := fun _ =>
      { size := 5, block_pointers := [20, 0, 0, 0, 0, 0, 0, 0], indirect_pointer := 0,
        creation_time := 0, modification_time := 0, permissions := 420, ref_count := 1 },
    directory := fun j => if j = 0 then { name := [104], inode_num := 1 }
      else { name := [], inode_num := 0 } }

/-- C2 witness: reading 3 bytes at offset 1 of the 5-byte file returns
exactly `min(3, 5-1) = 3` bytes, via the amended theorem. -/
theorem c2_read_spec_witness :
    find_file c2Witness (List.drop 1 [47, 104]) = some 0 ∧
    bfs_read c2Witness [47, 104] 3 1 = (3, [11, 12, 13]) := by
  have hfind : find_file c2Witness (List.drop 1 [47, 104]) = some 0 := by decide
  have h := (c2_read_spec c2Witness [47, 104] 0 3 1 hfind (by decide) (by decide)).2
    (by decide)
  refine ⟨hfind, ?_⟩
  rw [h]
  rfl

/-- A live file of size 32769 (one byte past the direct region) with no
allocated blocks at all — in particular `indirect_pointer = 0`. -/
def c2State : FSState :=
  { disk := zeroDisk, bitmap := fun _ => false, inode_map := fun b => decide (b = 0),
    inodes := fun _ =>
      { size := 32769, block_pointers := [0, 0, 0, 0, 0, 0, 0, 0], indirect_pointer := 0,
        creation_time := 0, modification_time := 0, permissions := 420, ref_count := 1 },
    directory := fun j => if j = 0 then { name := [104], inode_num := 1 }
      else { name := [], inode_num := 0 } }

/-- C2 counterexample: for the live file of size 32769 with
`indirect_pointer = 0`, reading 1 byte at offset 32768 (which is inside the
file: offset < size) returns 0 bytes, not `min(1, 32769 - 32768) = 1` —
the loop `break`s instead of zero-filling the span past the direct
region. -/
theorem c2_short_read :
    (32768 : Nat) < (c2State.inodes 0).size ∧
    (c2State.inodes 0).indirect_pointer = 0 ∧
    min 1 ((c2State.inodes 0).size - 32768) = 1 ∧
    bfs_read c2State [47, 104] 1 32768 = (0, []) := by
  refine ⟨by decide, rfl, rfl, ?_⟩
  rfl

/-! ## Claim C7: ENOSPC mid-write -/

theorem getD_set_self (l : List Nat) (n v : Nat) (h : n < l.length) :
    (l.set n v).getD n 0 = v := by
  simp [List.getD_eq_getElem?_getD, List.getElem?_set_self, h]

theorem getD_set_ne (l : List Nat) (n m v : Nat) (h : m ≠ n) :
    (l.set n v).getD m 0 = l.getD m 0 := by
  simp [List.getD_eq_getElem?_getD, List.getElem?_set_ne (Ne.symm h)]

/-- The state after `find_free_block` hands out block `c`. -/
def allocBitmapState (st : FSState) (c : Nat) : FSState :=
  { st with bitmap := updFun st.bitmap c true,
            disk := updBlock st.disk BITMAP_BLOCK_START (bitmapBytes (updFun st.bitmap c true)) }

theorem find_free_block_some (st : FSState) (c : Nat) (hc14 : 14 ≤ c) (hc : c < 4096)
    (hfree : st.bitmap c = false) (hbelow : ∀ b, 14 ≤ b → b < c → st.bitmap b = true) :
    find_free_block st = some (c, allocBitmapState st c) := by
  unfold find_free_block
  have hscan : scanIdx (fun i => !st.bitmap i) DATA_BLOCK_START
      (TOTAL_BLOCKS - DATA_BLOCK_START) = some c := by
    apply @scanIdx_some_of (fun i => !st.bitmap i) 14 (TOTAL_BLOCKS - DATA_BLOCK_START) c hc14
      (by have h2 : TOTAL_BLOCKS - DATA_BLOCK_START = 4082 := rfl
          omega)
      (by simp only [hfree, Bool.not_false])
      (fun k hk1 hk2 => by simp only [hbelow k hk1 hk2, Bool.not_true])
  rw [hscan]
  rfl

theorem find_free_block_none (st : FSState)
    (hfull : ∀ b, 14 ≤ b → b < 4096 → st.bitmap b = true) :
    find_free_block st = none := by
  unfold find_free_block
  rw [scanIdx_none_of (fun k hk1 hk2 => by
    rw [hfull k hk1 (by
      have h2 : DATA_BLOCK_START + (TOTAL_BLOCKS - DATA_BLOCK_START) = 4096 := rfl
      omega)]
    rfl)]

/-- The state after the direct-pointer allocation of one write-loop
iteration: block `c` marked used and stored in `block_pointers[bi]`. -/
def allocDirectState (st : FSState) (idx bi c : Nat) : FSState :=
  let stA := allocBitmapState st c
  let inoA := { (stA.inodes idx) with
    block_pointers := (stA.inodes idx).block_pointers.set bi c }
  { stA with inodes := updFun stA.inodes idx inoA }

theorem allocForWrite_direct (st : FSState) (idx bi c : Nat)
    (hbi : bi < DIRECT_BLOCKS)
    (hptr : (st.inodes idx).block_pointers.getD bi 0 = 0)
    (hc14 : 14 ≤ c) (hc : c < 4096)
    (hfree : st.bitmap c = false)
    (hbelow : ∀ b, 14 ≤ b → b < c → st.bitmap b = true) :
    allocForWrite st idx bi = .ok (allocDirectState st idx bi c) := by
  unfold allocForWrite
  rw [if_pos hbi, if_pos hptr, find_free_block_some st c hc14 hc hfree hbelow]
  rfl

/-- The read-modify-write of the resolved data block in one write-loop
iteration. -/
def writeDataState (st1 : FSState) (buf : Nat → Nat) (size bw cur ab : Nat) : FSState :=
  { st1 with disk := updBlock st1.disk ab (fun o =>
      if cur % BLOCK_SIZE ≤ o ∧ o < cur % BLOCK_SIZE + min (BLOCK_SIZE - cur % BLOCK_SIZE) (size - bw)
      then buf (bw + (o - cur % BLOCK_SIZE))
      else (st1.disk ab) o) }

/-- One full write-loop iteration, once the allocation phase has produced
`st1` and the block resolved to `ab`. -/
theorem writeLoopF_step (idx : Nat) (buf : Nat → Nat) (size now fuel fuel2 : Nat)
    (st st1 : FSState) (bw cur ab : Nat)
    (hfuel : fuel = fuel2 + 1)
    (hlt : bw < size)
    (halloc : allocForWrite st idx (cur / BLOCK_SIZE) = .ok st1)
    (hres : resolveWrite st1 idx (cur / BLOCK_SIZE) = ab) :
    writeLoopF idx buf size now fuel st bw cur =
      writeLoopF idx buf size now fuel2 (writeDataState st1 buf size bw cur ab)
        (bw + min (BLOCK_SIZE - cur % BLOCK_SIZE) (size - bw))
        (cur + min (BLOCK_SIZE - cur % BLOCK_SIZE) (size - bw)) := by
  subst hfuel
  rw [writeLoopF, if_pos hlt]
  dsimp only
  rw [halloc]
  dsimp only
  rw [hres]
  rfl

/-- When the direct branch needs a block and none is free, the loop returns
`-ENOSPC` with the state mutated so far — whatever `bytes_written` is. -/
theorem writeLoopF_enospc_direct (idx : Nat) (buf : Nat → Nat) (size now fuel fuel2 : Nat)
    (st : FSState) (bw cur : Nat)
    (hfuel : fuel = fuel2 + 1)
    (hlt : bw < size) (hbi : cur / BLOCK_SIZE < DIRECT_BLOCKS)
    (hptr : (st.inodes idx).block_pointers.getD (cur / BLOCK_SIZE) 0 = 0)
    (hfull : ∀ b, 14 ≤ b → b < 4096 → st.bitmap b = true) :
    writeLoopF idx buf size now fuel st bw cur = (st, -28) := by
  subst hfuel
  rw [writeLoopF, if_pos hlt]
  dsimp only
  rw [show allocForWrite st idx (cur / BLOCK_SIZE) = .error (st, -28) by
    unfold allocForWrite
    rw [if_pos hbi, if_pos hptr, find_free_block_none st hfull]]

/-- A state whose data bitmap has exactly one free block (block 14), with a
live zero-size file "a". -/
def c7State : FSState :=
  { disk := zeroDisk,
    bitmap := fun b => decide (b ≠ 14),
    inode_map := fun b => decide (b = 0),
    inodes := fun _ => zeroInode,
    directory := fun j => if j = 0 then { name := [97], inode_num := 1 }
      else { name := [], inode_num := 0 } }

/-- C7 counterexample: writing 8192 bytes at offset 0 when only one data
block is free processes the first 4096 bytes (committing the allocation of
block 14), then hits exhaustion and returns `-ENOSPC` — not the count 4096
the claim requires for `w > 0`.  The committed allocation survives in the
returned state (no rollback). -/
theorem c7_enospc_returns_error_despite_progress :
    (bfs_write c7State [47, 97] (fun k => k) 8192 0 0).2 = -28 ∧
    (bfs_write c7State [47, 97] (fun k => k) 8192 0 0).1.bitmap 14 = true ∧
    ((bfs_write c7State [47, 97] (fun k => k) 8192 0 0).1.inodes 0).block_pointers.getD 0 0
      = 14 := by
  have hfind : find_file c7State (List.drop 1 [47, 97]) = some 0 := rfl
  have halloc : allocForWrite c7State 0 (0 / BLOCK_SIZE) =
      .ok (allocDirectState c7State 0 0 14) :=
    allocForWrite_direct c7State 0 0 14 (by decide) (by decide) (by omega) (by omega)
      (by decide) (fun b hb1 hb2 => by
        show decide (b ≠ 14) = true
        simp only [decide_eq_true_eq]
        omega)
  have hres : resolveWrite (allocDirectState c7State 0 0 14) 0 (0 / BLOCK_SIZE) = 14 := by
    decide
  have hstep := writeLoopF_step 0 (fun k => k) 8192 0 (8192 + 1) 8192 c7State
    (allocDirectState c7State 0 0 14) 0 0 14 rfl (by omega) halloc hres
  have hfull : ∀ b, 14 ≤ b → b < 4096 →
      (writeDataState (allocDirectState c7State 0 0 14) (fun k => k) 8192 0 0 14).bitmap b
        = true := by
    intro b hb1 hb2
    show updFun c7State.bitmap 14 true b = true
    unfold updFun
    split
    · rfl
    · show decide (b ≠ 14) = true
      rename_i hne
      simp only [decide_eq_true_eq]
      exact hne
  have hstep2 := writeLoopF_enospc_direct 0 (fun k => k) 8192 0 8192 8191
    (writeDataState (allocDirectState c7State 0 0 14) (fun k => k) 8192 0 0 14)
    (0 + min (BLOCK_SIZE - 0 % BLOCK_SIZE) (8192 - 0))
    (0 + min (BLOCK_SIZE - 0 % BLOCK_SIZE) (8192 - 0))
    rfl (by decide) (by decide) (by decide) hfull
  have hw : bfs_write c7State [47, 97] (fun k => k) 8192 0 0 =
      (writeDataState (allocDirectState c7State 0 0 14) (fun k => k) 8192 0 0 14, -28) := by
    unfold bfs_write
    rw [hfind]
    dsimp only
    rw [if_neg (by decide)]
    rw [show (c7State.directory 0).inode_num - 1 = 0 from rfl]
    rw [hstep, hstep2]
  rw [hw]
  refine ⟨rfl, ?_, ?_⟩
  · show updFun c7State.bitmap 14 true 14 = true
    rw [updFun_self]
  · decide

/-- `writeFinish` leaves the bitmap untouched. -/
theorem writeFinish_bitmap (idx now : Nat) (st : FSState) (bw cur : Nat) :
    ((writeFinish idx now st bw cur).1).bitmap = st.bitmap := by
  unfold writeFinish
  dsimp only
  split <;> rfl

theorem find_free_block_bitmap_mono {st : FSState} {fb : Nat} {st2 : FSState}
    (h : find_free_block st = some (fb, st2)) {b : Nat} (hb : st.bitmap b = true) :
    st2.bitmap b = true := by
  unfold find_free_block at h
  split at h
  · exact absurd h (by simp)
  · rename_i i heq
    simp only [Option.some.injEq, Prod.mk.injEq] at h
    obtain ⟨h1, h2⟩ := h
    subst h2
    show updFun st.bitmap i true b = true
    unfold updFun
    split
    · rfl
    · exact hb

theorem allocEnsureIndirect_bitmap_mono (st : FSState) (idx b : Nat)
    (hb : st.bitmap b = true) :
    (match allocEnsureIndirect st idx with
     | .ok s => s.bitmap b
     | .error r => r.1.bitmap b) = true := by
  unfold allocEnsureIndirect
  by_cases hind : (st.inodes idx).indirect_pointer = 0
  · rw [if_pos hind]
    cases hffb : find_free_block st with
    | none => exact hb
    | some p =>
      obtain ⟨fb, stA⟩ := p
      exact find_free_block_bitmap_mono hffb hb
  · rw [if_neg hind]
    exact hb

theorem allocIndirectEntry_bitmap_mono (st1 : FSState) (idx bi b : Nat)
    (hb : st1.bitmap b = true) :
    (match allocIndirectEntry st1 idx bi with
     | .ok s => s.bitmap b
     | .error r => r.1.bitmap b) = true := by
  unfold allocIndirectEntry
  dsimp only
  by_cases h1024 : BLOCK_SIZE / 4 ≤ bi - DIRECT_BLOCKS
  · rw [if_pos h1024]
    exact hb
  · rw [if_neg h1024]
    by_cases hdec : decodeInt (st1.disk (st1.inodes idx).indirect_pointer)
        (bi - DIRECT_BLOCKS) = 0
    · rw [if_pos hdec]
      cases hffb : find_free_block st1 with
      | none => exact hb
      | some p =>
        obtain ⟨fb2, st2⟩ := p
        exact find_free_block_bitmap_mono hffb hb
    · rw [if_neg hdec]
      exact hb

/-- Every outcome of the allocation phase keeps every set bitmap bit set
(allocation only ever sets bits). -/
theorem allocForWrite_bitmap_mono (st : FSState) (idx bi : Nat) (b : Nat)
    (hb : st.bitmap b = true) :
    (match allocForWrite st idx bi with
     | .ok st1 => st1.bitmap b
     | .error r => r.1.bitmap b) = true := by
  unfold allocForWrite
  by_cases hbi : bi < DIRECT_BLOCKS
  · rw [if_pos hbi]
    by_cases hptr : (st.inodes idx).block_pointers.getD bi 0 = 0
    · rw [if_pos hptr]
      cases hffb : find_free_block st with
      | none => exact hb
      | some p =>
        obtain ⟨fb, stA⟩ := p
        exact find_free_block_bitmap_mono hffb hb
    · rw [if_neg hptr]
      exact hb
  · rw [if_neg hbi]
    cases hE : allocEnsureIndirect st idx with
    | error r =>
      have hm := allocEnsureIndirect_bitmap_mono st idx b hb
      rw [hE] at hm
      exact hm
    | ok st1 =>
      have h1 : st1.bitmap b = true := by
        have hm := allocEnsureIndirect_bitmap_mono st idx b hb
        rw [hE] at hm
        exact hm
      exact allocIndirectEntry_bitmap_mono st1 idx bi b h1

theorem allocForWrite_ok_bitmap_mono {st : FSState} {idx bi : Nat} {st1 : FSState}
    (h : allocForWrite st idx bi = .ok st1) {b : Nat} (hb : st.bitmap b = true) :
    st1.bitmap b = true := by
  have hm := allocForWrite_bitmap_mono st idx bi b hb
  rw [h] at hm
  exact hm

theorem allocForWrite_error_bitmap_mono {st : FSState} {idx bi : Nat} {r : FSState × Int}
    (h : allocForWrite st idx bi = .error r) {b : Nat} (hb : st.bitmap b = true) :
    r.1.bitmap b = true := by
  have hm := allocForWrite_bitmap_mono st idx bi b hb
  rw [h] at hm
  exact hm

/-- C7 (amended): a write never clears a data-bitmap bit — whatever the
outcome (success, `-ENOSPC` midway, `-EFBIG`, `-ENOENT`), every block
allocation already made stays committed. -/
theorem c7_write_no_rollback (st : FSState) (path : List Nat) (buf : Nat → Nat)
    (len offset now : Nat) (b : Nat) (hb : st.bitmap b = true) :
    ((bfs_write st path buf len offset now).1).bitmap b = true := by
  have hloop : ∀ idx fuel st2 bw cur, st2.bitmap b = true →
      ((writeLoopF idx buf len now fuel st2 bw cur).1).bitmap b = true := by
    intro idx fuel
    induction fuel with
    | zero =>
      intro st2 bw cur hb2
      rw [writeLoopF]
      split
      · exact hb2
      · rw [writeFinish_bitmap]
        exact hb2
    | succ f ih =>
      intro st2 bw cur hb2
      rw [writeLoopF]
      split
      · dsimp only
        split
        · rename_i r heq
          exact allocForWrite_error_bitmap_mono heq hb2
        · rename_i st1 heq
          exact ih _ _ _ (allocForWrite_ok_bitmap_mono heq hb2)
      · rw [writeFinish_bitmap]
        exact hb2
  unfold bfs_write
  cases hfind : find_file st (path.drop 1) with
  | none => exact hb
  | some i =>
    dsimp only
    split
    · exact hb
    · exact hloop _ (len + 1) st 0 offset hb

theorem c7_write_no_rollback_witness :
    c7State.bitmap 0 = true ∧
    ((bfs_write c7State [47, 97] (fun k => k) 8192 0 0).1).bitmap 0 = true :=
  ⟨by decide, c7_write_no_rollback c7State [47, 97] (fun k => k) 8192 0 0 0 (by decide)⟩

/-! ## Claim C1: the create/write/read round trip

From a freshly formatted and mounted disk, `bfs_create` occupies directory
slot 78 (the first free one after the 78 clobbered slots) and inode 2, and
the subsequent sequential write allocates data blocks deterministically:
logical block `l < 8` lands on physical block `14 + l`; on first touching
the indirect region the indirect block itself takes 22; logical block
`l ≥ 8` lands on `15 + l`. -/

/-- Number of bitmap bits the write loop has set after `k` iterations (the
indirect block adds one once `k` passes the direct region). -/
def allocCount (k : Nat) : Nat := if k ≤ 8 then k else k + 1

/-- Physical data block of logical block `l` in this allocation pattern. -/
def physB (l : Nat) : Nat := if l < 8 then 14 + l else 15 + l

/-- The direct-pointer array after `k` iterations. -/
def listPtrs (k : Nat) : List Nat :=
  (List.range 8).map (fun j => if j < k then 14 + j else 0)

/-- Entry `e` of the indirect block after `k` iterations. -/
def indirEntry (k e : Nat) : Nat := if e < k - 8 then 23 + e else 0

/-- The indirect block (block 22) after `k` iterations. -/
def indirBlockFun (k : Nat) : Block := fun o =>
  if o < 4096 then byteOf (indirEntry k (o / 4)) (o % 4) else 0

/-- Data block `l` of a file whose first `n` bytes are `B`. -/
def dataBlockFun (B : Nat → Nat) (n l : Nat) : Block := fun o =>
  if o < 4096 ∧ 4096 * l + o < n then B (4096 * l + o) else 0

/-- The written file's inode after `k` loop iterations (size still 0, the
loop grows it only in `writeFinish`). -/
def wInode (mode now k : Nat) : Inode :=
  { size := 0, block_pointers := listPtrs k,
    indirect_pointer := if k ≤ 8 then 0 else 22,
    creation_time := now, modification_time := now,
    permissions := mode, ref_count := 1 }

/-- The file's inode after `writeFinish` of an `n`-byte write (`K` loop
iterations ran). -/
def wInodeF (mode now now2 n K : Nat) : Inode :=
  { size := n, block_pointers := listPtrs K,
    indirect_pointer := if K ≤ 8 then 0 else 22,
    creation_time := now, modification_time := now2,
    permissions := mode, ref_count := 1 }

/-- The write-loop invariant after `k` iterations of writing buffer `B`
(length `n`, offset 0) to the file created first on a fresh disk. -/
structure WInv (p : List Nat) (mode now : Nat) (B : Nat → Nat) (n k : Nat)
    (st : FSState) : Prop where
  bm : st.bitmap = fun b => decide (b < 14 + allocCount k)
  dirLow : ∀ j, j < 78 → st.directory j = { name := [46], inode_num := 1 }
  dir78 : st.directory 78 = { name := p, inode_num := 2 }
  dirHigh : ∀ j, 78 < j → j < 128 → st.directory j = { name := [], inode_num := 0 }
  ino1 : st.inodes 1 = wInode mode now k
  dataB : ∀ l, l < k → st.disk (physB l) = dataBlockFun B n l
  indirB : 8 < k → st.disk 22 = indirBlockFun k
  free : ∀ b, 14 + allocCount k ≤ b → st.disk b = zeroBlock

theorem allocCount_le {k : Nat} (h : k ≤ 8) : allocCount k = k := by
  unfold allocCount
  rw [if_pos h]

theorem allocCount_gt {k : Nat} (h : 8 < k) : allocCount k = k + 1 := by
  unfold allocCount
  rw [if_neg (by omega)]

theorem listPtrs_length (k : Nat) : (listPtrs k).length = 8 := by
  unfold listPtrs
  simp

theorem listPtrs_getD (k : Nat) {j : Nat} (hj : j < 8) :
    (listPtrs k).getD j 0 = if j < k then 14 + j else 0 := by
  interval_cases j <;> rfl

theorem listPtrs_set (k : Nat) (hk : k < 8) :
    (listPtrs k).set k (14 + k) = listPtrs (k + 1) := by
  interval_cases k <;> decide

theorem listPtrs_succ_ge8 (k : Nat) (h : 8 ≤ k) : listPtrs (k + 1) = listPtrs k := by
  unfold listPtrs
  apply List.map_congr_left
  intro j hj
  have hj8 : j < 8 := List.mem_range.mp hj
  rw [if_pos (by omega), if_pos (by omega)]

theorem zeroBlock_eq_indir8 : zeroBlock = indirBlockFun 8 := by
  funext o
  unfold zeroBlock indirBlockFun indirEntry
  by_cases ho : o < 4096
  · rw [if_pos ho, if_neg (by omega)]
    simp [byteOf]
  · rw [if_neg ho]

theorem decodeInt_indirBlockFun (k e : Nat) (he : e < 1024) :
    decodeInt (indirBlockFun k) e = indirEntry k e := by
  have hbyte : ∀ r, r < 4 → indirBlockFun k (4 * e + r) = byteOf (indirEntry k e) r := by
    intro r hr
    unfold indirBlockFun
    rw [if_pos (by omega)]
    rw [show (4 * e + r) / 4 = e by omega, show (4 * e + r) % 4 = r by omega]
  unfold decodeInt
  rw [show 4 * e = 4 * e + 0 by omega]
  rw [hbyte 0 (by omega), hbyte 1 (by omega), hbyte 2 (by omega), hbyte 3 (by omega)]
  exact byte_recompose (by unfold indirEntry; split <;> omega)

theorem writeIntLE_indir (k : Nat) (h8 : 8 ≤ k) (hk : k < 1032) :
    writeIntLE (indirBlockFun k) (k - 8) (15 + k) = indirBlockFun (k + 1) := by
  funext o
  have hent : indirEntry (k + 1) (k - 8) = 15 + k := by
    unfold indirEntry
    rw [if_pos (by omega)]
    omega
  by_cases hin : 4 * (k - 8) ≤ o ∧ o < 4 * (k - 8) + 4
  · have hcase : o = 4 * (k - 8) ∨ o = 4 * (k - 8) + 1 ∨ o = 4 * (k - 8) + 2 ∨
        o = 4 * (k - 8) + 3 := by omega
    have hrhs : ∀ r, r < 4 → indirBlockFun (k + 1) (4 * (k - 8) + r) = byteOf (15 + k) r := by
      intro r hr
      unfold indirBlockFun
      rw [if_pos (by omega)]
      rw [show (4 * (k - 8) + r) / 4 = k - 8 by omega, show (4 * (k - 8) + r) % 4 = r by omega,
        hent]
    rcases hcase with h | h | h | h
    · rw [show o = 4 * (k - 8) + 0 by omega, show (4 * (k-8) + 0 : Nat) = 4 * (k-8) by omega,
        writeIntLE_at0, ← hrhs 0 (by omega)]
      rw [show (4 * (k-8) + 0 : Nat) = 4 * (k-8) by omega]
    · rw [h, writeIntLE_at1, hrhs 1 (by omega)]
    · rw [h, writeIntLE_at2, hrhs 2 (by omega)]
    · rw [h, writeIntLE_at3, hrhs 3 (by omega)]
  · rw [writeIntLE_out _ (by omega) (by omega) (by omega) (by omega)]
    unfold indirBlockFun
    by_cases ho : o < 4096
    · rw [if_pos ho, if_pos ho]
      have hne : o / 4 ≠ k - 8 := by omega
      have : indirEntry k (o / 4) = indirEntry (k + 1) (o / 4) := by
        unfold indirEntry
        by_cases hl : o / 4 < k - 8
        · rw [if_pos hl, if_pos (by omega)]
        · rw [if_neg hl, if_neg (by omega)]
      rw [this]
    · rw [if_neg ho, if_neg ho]

theorem updFun_updFun {α : Type} (f : Nat → α) (i : Nat) (a b : α) :
    updFun (updFun f i a) i b = updFun f i b := by
  funext m
  unfold updFun
  split <;> rfl

/-- When the resolved data block is still all zero and the write starts at
a block boundary, one loop iteration turns it into `dataBlockFun B n k`. -/
theorem writeData_disk (st1 : FSState) (B : Nat → Nat) (n k ab : Nat)
    (hzero : st1.disk ab = zeroBlock) :
    (writeDataState st1 B n (4096 * k) (4096 * k) ab).disk =
      updBlock st1.disk ab (dataBlockFun B n k) := by
  unfold writeDataState
  dsimp only
  refine congrArg (updBlock st1.disk ab) ?_
  funext o
  have hB : BLOCK_SIZE = 4096 := rfl
  simp only [hB]
  have hmod : 4096 * k % 4096 = 0 := by omega
  simp only [hmod]
  rw [hzero]
  unfold dataBlockFun zeroBlock
  by_cases ho : o < 4096 ∧ 4096 * k + o < n
  · rw [if_pos (by omega), if_pos ho, Nat.sub_zero]
  · rw [if_neg (by omega), if_neg ho]

/-! ### The create phase on a fresh disk -/

theorem find_file_fresh_none (t : Nat) (p : List Nat) (hne : p ≠ [46]) :
    find_file (freshMounted t) p = none := by
  unfold find_file
  apply scanIdx_none_of
  intro k hk1 hk2
  have hk128 : k < 0 + 128 := hk2
  show (decide (0 < ((freshMounted t).directory k).inode_num) &&
        decide (((freshMounted t).directory k).name = p)) = false
  by_cases h78 : k < 78
  · rw [freshMounted_dir_low t h78]
    have h46 : ([46] : List Nat) ≠ p := fun h => hne h.symm
    simp [h46]
  · rw [freshMounted_dir_high t (by omega) (by omega)]
    simp

/-- The directory scan of a state whose slots 0..77 are the clobbered
live `"."` entries and whose slot 78 holds `p`. -/
theorem find_file_78 (st : FSState) (p : List Nat) (hne : p ≠ [46])
    (hdirLow : ∀ j, j < 78 → st.directory j = { name := [46], inode_num := 1 })
    (hdir78 : st.directory 78 = { name := p, inode_num := 2 }) :
    find_file st p = some 78 := by
  unfold find_file
  apply scanIdx_some_of (by omega) (show (78:Nat) < 0 + 128 by omega)
  · show (decide (0 < (st.directory 78).inode_num) &&
        decide ((st.directory 78).name = p)) = true
    rw [hdir78]
    simp
  · intro j hj1 hj2
    show (decide (0 < (st.directory j).inode_num) &&
        decide ((st.directory j).name = p)) = false
    rw [hdirLow j hj2]
    have h46 : ([46] : List Nat) ≠ p := fun h => hne h.symm
    simp [h46]

/-- The state `bfs_create` persists when creating the first file on a
fresh disk: directory slot 78 and inode 2. -/
def createdState (t : Nat) (p : List Nat) (mode now : Nat) : FSState :=
  { freshMounted t with
    inode_map := updFun (freshMounted t).inode_map 1 true,
    inodes := updFun (freshMounted t).inodes 1
      { size := 0, block_pointers := [0, 0, 0, 0, 0, 0, 0, 0], indirect_pointer := 0,
        creation_time := now, modification_time := now,
        permissions := mode, ref_count := 1 },
    directory := updFun (freshMounted t).directory 78 { name := p, inode_num := 2 } }

theorem create_fresh (t : Nat) (p : List Nat) (mode now : Nat)
    (hp : p.length ≤ 47) (hne : p ≠ [46]) :
    bfs_create (freshMounted t) (47 :: p) mode now =
      (save_metadata (createdState t p mode now), 0) := by
  unfold bfs_create
  rw [show List.drop 1 (47 :: p) = p from rfl]
  rw [find_file_fresh_none t p hne]
  have hslot : scanIdx (fun i => decide (((freshMounted t).directory i).inode_num = 0))
      0 MAX_FILES = some 78 := by
    apply scanIdx_some_of (by omega) (show (78:Nat) < 0 + 128 by omega)
    · show decide (((freshMounted t).directory 78).inode_num = 0) = true
      rw [freshMounted_dir_high t (by omega) (by omega)]
      rfl
    · intro j hj1 hj2
      show decide (((freshMounted t).directory j).inode_num = 0) = false
      rw [freshMounted_dir_low t hj2]
      rfl
  rw [hslot]
  have hfi : find_free_inode (freshMounted t).inode_map =
      some (2, updFun (freshMounted t).inode_map 1 true) := by
    unfold find_free_inode
    have hscan : scanIdx (fun i => !(freshMounted t).inode_map i) 0 MAX_FILES = some 1 := by
      apply scanIdx_some_of (by omega) (show (1:Nat) < 0 + 128 by omega)
      · show (!(freshMounted t).inode_map 1) = true
        rw [freshMounted_inode_map]
        rfl
      · intro j hj1 hj2
        have hj0 : j = 0 := by omega
        subst hj0
        show (!(freshMounted t).inode_map 0) = false
        rw [freshMounted_inode_map]
        rfl
    rw [hscan]
  rw [hfi]
  have htake : p.take (FILENAME_LEN - 1) = p := by
    show p.take 47 = p
    exact List.take_of_length_le hp
  rw [htake]
  rfl

theorem winv_base (t : Nat) (p : List Nat) (mode now : Nat) (B : Nat → Nat) (n : Nat) :
    WInv p mode now B n 0 (save_metadata (createdState t p mode now)) := by
  constructor
  · rw [save_metadata_bitmap]
    show (freshMounted t).bitmap = _
    rw [freshMounted_bitmap]
    rfl
  · intro j hj
    show updFun (freshMounted t).directory 78 _ j = _
    rw [updFun_ne _ _ (by omega)]
    exact freshMounted_dir_low t hj
  · show updFun (freshMounted t).directory 78 { name := p, inode_num := 2 } 78 =
        ({ name := p, inode_num := 2 } : DirectoryEntry)
    exact updFun_self _ _ _
  · intro j h1 h2
    show updFun (freshMounted t).directory 78 _ j = _
    rw [updFun_ne _ _ (by omega)]
    exact freshMounted_dir_high t (by omega) h2
  · show updFun (freshMounted t).inodes 1 _ 1 = _
    rw [updFun_self]
    rfl
  · intro l hl
    exact absurd hl (Nat.not_lt_zero l)
  · intro h
    exact absurd h (by omega)
  · intro b hb
    have hb14 : 14 ≤ b := by
      have h0 : allocCount 0 = 0 := rfl
      omega
    rw [save_metadata_disk_out _ (Or.inr (Or.inr hb14))]
    show (freshMounted t).disk b = zeroBlock
    exact freshMounted_disk_high t hb14

/-! ### The indirect-allocation states -/

/-- The state after `allocEnsureIndirect` allocates block `c` as the
indirect block and zero-fills it on disk. -/
def ensureIndirectState (st : FSState) (idx c : Nat) : FSState :=
  let stA := allocBitmapState st c
  let inoA := { (stA.inodes idx) with indirect_pointer := c }
  let stB := { stA with inodes := updFun stA.inodes idx inoA }
  { stB with disk := updBlock stB.disk c zeroBlock }

/-- The state after `allocIndirectEntry` allocates block `c2` into the
indirect-block entry of logical block `bi`. -/
def allocEntryState (st1 : FSState) (idx bi c2 : Nat) : FSState :=
  let ip := (st1.inodes idx).indirect_pointer
  let st2 := allocBitmapState st1 c2
  { st2 with disk := updBlock st2.disk ip (writeIntLE (st1.disk ip) (bi - DIRECT_BLOCKS) c2) }

theorem allocEnsureIndirect_alloc (st : FSState) (idx c : Nat)
    (hind : (st.inodes idx).indirect_pointer = 0)
    (hc14 : 14 ≤ c) (hc : c < 4096)
    (hfree : st.bitmap c = false)
    (hbelow : ∀ b, 14 ≤ b → b < c → st.bitmap b = true) :
    allocEnsureIndirect st idx = .ok (ensureIndirectState st idx c) := by
  unfold allocEnsureIndirect
  rw [if_pos hind, find_free_block_some st c hc14 hc hfree hbelow]
  rfl

theorem allocEnsureIndirect_skip (st : FSState) (idx : Nat)
    (hind : (st.inodes idx).indirect_pointer ≠ 0) :
    allocEnsureIndirect st idx = .ok st := by
  unfold allocEnsureIndirect
  rw [if_neg hind]

theorem allocIndirectEntry_alloc (st1 : FSState) (idx bi c2 : Nat)
    (hbi : bi - DIRECT_BLOCKS < 1024)
    (hdec : decodeInt (st1.disk ((st1.inodes idx).indirect_pointer)) (bi - DIRECT_BLOCKS) = 0)
    (hc14 : 14 ≤ c2) (hc : c2 < 4096)
    (hfree : st1.bitmap c2 = false)
    (hbelow : ∀ b, 14 ≤ b → b < c2 → st1.bitmap b = true) :
    allocIndirectEntry st1 idx bi = .ok (allocEntryState st1 idx bi c2) := by
  unfold allocIndirectEntry
  dsimp only
  rw [if_neg (show ¬ BLOCK_SIZE / 4 ≤ bi - DIRECT_BLOCKS from by
    show ¬ 1024 ≤ bi - DIRECT_BLOCKS
    omega)]
  rw [if_pos hdec, find_free_block_some st1 c2 hc14 hc hfree hbelow]
  rfl

theorem allocForWrite_indirect (st : FSState) (idx bi : Nat) (st1 stR : FSState)
    (hbi : ¬ bi < DIRECT_BLOCKS)
    (hE : allocEnsureIndirect st idx = .ok st1)
    (hA : allocIndirectEntry st1 idx bi = .ok stR) :
    allocForWrite st idx bi = .ok stR := by
  unfold allocForWrite
  rw [if_neg hbi, hE]
  exact hA

/-! ### Projections of the allocation states -/

theorem allocDirectState_inodes_self (st : FSState) (idx bi c : Nat) :
    (allocDirectState st idx bi c).inodes idx =
      { (st.inodes idx) with
        block_pointers := (st.inodes idx).block_pointers.set bi c } := by
  unfold allocDirectState allocBitmapState
  dsimp only
  rw [updFun_self]

theorem allocDirectState_disk (st : FSState) (idx bi c : Nat) {b : Nat} (hb : b ≠ 1) :
    (allocDirectState st idx bi c).disk b = st.disk b := by
  show updBlock st.disk BITMAP_BLOCK_START _ b = st.disk b
  exact updBlock_ne _ _ (show b ≠ BITMAP_BLOCK_START from hb)

theorem ensureIndirectState_inodes_self (st : FSState) (idx c : Nat) :
    (ensureIndirectState st idx c).inodes idx =
      { (st.inodes idx) with indirect_pointer := c } := by
  unfold ensureIndirectState allocBitmapState
  dsimp only
  rw [updFun_self]

theorem ensureIndirectState_disk_self (st : FSState) (idx c : Nat) :
    (ensureIndirectState st idx c).disk c = zeroBlock := by
  unfold ensureIndirectState allocBitmapState
  dsimp only
  rw [updBlock_self]

theorem ensureIndirectState_disk_ne (st : FSState) (idx c : Nat) {b : Nat}
    (hb1 : b ≠ 1) (hbc : b ≠ c) :
    (ensureIndirectState st idx c).disk b = st.disk b := by
  unfold ensureIndirectState allocBitmapState
  dsimp only
  rw [updBlock_ne _ _ hbc, updBlock_ne _ _ (show b ≠ BITMAP_BLOCK_START from hb1)]

theorem allocEntryState_disk_ip (st1 : FSState) (idx bi c2 : Nat) :
    (allocEntryState st1 idx bi c2).disk ((st1.inodes idx).indirect_pointer) =
      writeIntLE (st1.disk ((st1.inodes idx).indirect_pointer)) (bi - DIRECT_BLOCKS) c2 := by
  unfold allocEntryState allocBitmapState
  dsimp only
  rw [updBlock_self]

theorem allocEntryState_disk_ne (st1 : FSState) (idx bi c2 : Nat) {b : Nat}
    (hb1 : b ≠ 1) (hbip : b ≠ (st1.inodes idx).indirect_pointer) :
    (allocEntryState st1 idx bi c2).disk b = st1.disk b := by
  unfold allocEntryState allocBitmapState
  dsimp only
  rw [updBlock_ne _ _ hbip, updBlock_ne _ _ (show b ≠ BITMAP_BLOCK_START from hb1)]

theorem writeDataState_disk_ne (st1 : FSState) (buf : Nat → Nat) (size bw cur ab : Nat)
    {b : Nat} (hb : b ≠ ab) :
    (writeDataState st1 buf size bw cur ab).disk b = st1.disk b :=
  updBlock_ne _ _ hb

/-! ### One write-loop iteration preserves the invariant -/

/-- Iteration `k < 8`: allocate direct block `14 + k` and fill it. -/
theorem winv_step_direct (p : List Nat) (mode now nowW : Nat) (B : Nat → Nat) (n k : Nat)
    (st : FSState) (fuel fuel2 : Nat)
    (hfuel : fuel = fuel2 + 1) (hk : 4096 * k < n) (hk8 : k < 8)
    (hinv : WInv p mode now B n k st) :
    writeLoopF 1 B n nowW fuel st (4096 * k) (4096 * k) =
      writeLoopF 1 B n nowW fuel2
        (writeDataState (allocDirectState st 1 k (14 + k)) B n (4096 * k) (4096 * k) (14 + k))
        (4096 * k + min 4096 (n - 4096 * k)) (4096 * k + min 4096 (n - 4096 * k)) ∧
    WInv p mode now B n (k + 1)
      (writeDataState (allocDirectState st 1 k (14 + k)) B n (4096 * k) (4096 * k) (14 + k)) := by
  have hacK : allocCount k = k := allocCount_le (by omega)
  have hB : BLOCK_SIZE = 4096 := rfl
  have hbidx : 4096 * k / BLOCK_SIZE = k := by
    rw [hB]
    omega
  have hmin : min (BLOCK_SIZE - 4096 * k % BLOCK_SIZE) (n - 4096 * k) =
      min 4096 (n - 4096 * k) := by
    rw [hB]
    omega
  have hptr : (st.inodes 1).block_pointers.getD k 0 = 0 := by
    rw [hinv.ino1]
    show (listPtrs k).getD k 0 = 0
    rw [listPtrs_getD k hk8, if_neg (Nat.lt_irrefl k)]
  have halloc : allocForWrite st 1 k = .ok (allocDirectState st 1 k (14 + k)) := by
    apply allocForWrite_direct st 1 k (14 + k) (show k < DIRECT_BLOCKS from hk8) hptr
      (by omega) (by omega)
    · rw [hinv.bm]
      exact decide_eq_false (by omega)
    · intro b hb1 hb2
      rw [hinv.bm]
      exact decide_eq_true (by omega)
  have hres : resolveWrite (allocDirectState st 1 k (14 + k)) 1 k = 14 + k := by
    unfold resolveWrite
    rw [if_pos (show k < DIRECT_BLOCKS from hk8)]
    rw [allocDirectState_inodes_self]
    show ((st.inodes 1).block_pointers.set k (14 + k)).getD k 0 = 14 + k
    rw [hinv.ino1]
    show ((listPtrs k).set k (14 + k)).getD k 0 = 14 + k
    exact getD_set_self _ _ _ (by rw [listPtrs_length]; omega)
  have hz : (allocDirectState st 1 k (14 + k)).disk (14 + k) = zeroBlock := by
    rw [allocDirectState_disk st 1 k (14 + k) (by omega)]
    exact hinv.free (14 + k) (by omega)
  have hstep := writeLoopF_step 1 B n nowW fuel fuel2 st
    (allocDirectState st 1 k (14 + k)) (4096 * k) (4096 * k) (14 + k) hfuel (by omega)
    (by rw [hbidx]; exact halloc) (by rw [hbidx]; exact hres)
  rw [hmin] at hstep
  refine ⟨hstep, ?_⟩
  have hsk : allocCount (k + 1) = k + 1 := allocCount_le (by omega)
  constructor
  · show updFun st.bitmap (14 + k) true = _
    rw [hinv.bm]
    funext b
    show (if b = 14 + k then true else decide (b < 14 + allocCount k)) =
      decide (b < 14 + allocCount (k + 1))
    by_cases hb : b = 14 + k
    · rw [if_pos hb]
      exact (decide_eq_true (by omega)).symm
    · rw [if_neg hb, decide_eq_decide]
      omega
  · intro j hj
    exact hinv.dirLow j hj
  · exact hinv.dir78
  · intro j h1 h2
    exact hinv.dirHigh j h1 h2
  · show (allocDirectState st 1 k (14 + k)).inodes 1 = wInode mode now (k + 1)
    rw [allocDirectState_inodes_self, hinv.ino1]
    show Inode.mk 0 ((listPtrs k).set k (14 + k)) (if k ≤ 8 then 0 else 22) now now mode 1 =
      Inode.mk 0 (listPtrs (k + 1)) (if k + 1 ≤ 8 then 0 else 22) now now mode 1
    rw [listPtrs_set k hk8, if_pos (show k ≤ 8 by omega), if_pos (show k + 1 ≤ 8 by omega)]
  · intro l hl
    by_cases hlk : l = k
    · subst hlk
      rw [show physB l = 14 + l from by unfold physB; rw [if_pos (by omega)]]
      have hdd := writeData_disk (allocDirectState st 1 l (14 + l)) B n l (14 + l) hz
      rw [hdd]
      exact updBlock_self _ _ _
    · have hlk2 : l < k := by omega
      have hphys : physB l = 14 + l := by
        unfold physB
        rw [if_pos (by omega)]
      rw [hphys]
      rw [writeDataState_disk_ne _ _ _ _ _ _ (by omega : (14 + l : Nat) ≠ 14 + k)]
      rw [allocDirectState_disk st 1 k (14 + k) (by omega)]
      have hd := hinv.dataB l hlk2
      rw [hphys] at hd
      exact hd
  · intro h
    exact absurd h (by omega)
  · intro b hb
    have hb' : 14 + (k + 1) ≤ b := by
      rw [hsk] at hb
      exact hb
    rw [writeDataState_disk_ne _ _ _ _ _ _ (by omega)]
    rw [allocDirectState_disk st 1 k (14 + k) (by omega)]
    exact hinv.free b (by omega)

/-- Iteration `k = 8`: allocate the indirect block (22), then data
block 23 into its entry 0, and fill it. -/
theorem winv_step_ind8 (p : List Nat) (mode now nowW : Nat) (B : Nat → Nat) (n : Nat)
    (st : FSState) (fuel fuel2 : Nat)
    (hfuel : fuel = fuel2 + 1) (hk : 4096 * 8 < n)
    (hinv : WInv p mode now B n 8 st) :
    writeLoopF 1 B n nowW fuel st (4096 * 8) (4096 * 8) =
      writeLoopF 1 B n nowW fuel2
        (writeDataState (allocEntryState (ensureIndirectState st 1 22) 1 8 23) B n
          (4096 * 8) (4096 * 8) 23)
        (4096 * 8 + min 4096 (n - 4096 * 8)) (4096 * 8 + min 4096 (n - 4096 * 8)) ∧
    WInv p mode now B n 9
      (writeDataState (allocEntryState (ensureIndirectState st 1 22) 1 8 23) B n
        (4096 * 8) (4096 * 8) 23) := by
  have hac8 : allocCount 8 = 8 := rfl
  have hB : BLOCK_SIZE = 4096 := rfl
  have hmin : min (BLOCK_SIZE - 4096 * 8 % BLOCK_SIZE) (n - 4096 * 8) =
      min 4096 (n - 4096 * 8) := by
    rw [hB]
  have hind0 : (st.inodes 1).indirect_pointer = 0 := by
    rw [hinv.ino1]
    rfl
  have hE : allocEnsureIndirect st 1 = .ok (ensureIndirectState st 1 22) := by
    apply allocEnsureIndirect_alloc st 1 22 hind0 (by omega) (by omega)
    · rw [hinv.bm]
      exact decide_eq_false (by omega)
    · intro b hb1 hb2
      rw [hinv.bm]
      exact decide_eq_true (by omega)
  have hip2 : ((ensureIndirectState st 1 22).inodes 1).indirect_pointer = 22 := by
    rw [ensureIndirectState_inodes_self]
  have hdisk22 : (allocEntryState (ensureIndirectState st 1 22) 1 8 23).disk 22 =
      writeIntLE ((ensureIndirectState st 1 22).disk 22) (8 - DIRECT_BLOCKS) 23 := by
    have h := allocEntryState_disk_ip (ensureIndirectState st 1 22) 1 8 23
    rw [hip2] at h
    exact h
  have hA : allocIndirectEntry (ensureIndirectState st 1 22) 1 8 =
      .ok (allocEntryState (ensureIndirectState st 1 22) 1 8 23) := by
    apply allocIndirectEntry_alloc _ 1 8 23 (by decide)
    · rw [hip2, ensureIndirectState_disk_self]
      rfl
    · omega
    · omega
    · show updFun st.bitmap 22 true 23 = false
      rw [updFun_ne _ _ (by omega), hinv.bm]
      exact decide_eq_false (by omega)
    · intro b hb1 hb2
      show updFun st.bitmap 22 true b = true
      by_cases hb22 : b = 22
      · subst hb22
        exact updFun_self _ _ _
      · rw [updFun_ne _ _ hb22, hinv.bm]
        exact decide_eq_true (by omega)
  have halloc : allocForWrite st 1 8 =
      .ok (allocEntryState (ensureIndirectState st 1 22) 1 8 23) :=
    allocForWrite_indirect st 1 8 _ _ (by decide) hE hA
  have hres : resolveWrite (allocEntryState (ensureIndirectState st 1 22) 1 8 23) 1 8 = 23 := by
    unfold resolveWrite
    rw [if_neg (by decide : ¬ (8:Nat) < DIRECT_BLOCKS)]
    rw [show (allocEntryState (ensureIndirectState st 1 22) 1 8 23).inodes 1 =
        (ensureIndirectState st 1 22).inodes 1 from rfl]
    rw [hip2, hdisk22, ensureIndirectState_disk_self]
    exact decodeInt_writeIntLE_self _ (by norm_num)
  have hz23 : (allocEntryState (ensureIndirectState st 1 22) 1 8 23).disk 23 = zeroBlock := by
    rw [allocEntryState_disk_ne _ _ _ _ (by omega) (by rw [hip2]; omega)]
    rw [ensureIndirectState_disk_ne _ _ _ (by omega) (by omega)]
    exact hinv.free 23 (by omega)
  have hstep := writeLoopF_step 1 B n nowW fuel fuel2 st
    (allocEntryState (ensureIndirectState st 1 22) 1 8 23) (4096 * 8) (4096 * 8) 23 hfuel
    (by omega) (by exact halloc) (by exact hres)
  rw [hmin] at hstep
  refine ⟨hstep, ?_⟩
  constructor
  · show updFun (updFun st.bitmap 22 true) 23 true = _
    rw [hinv.bm]
    funext b
    show (if b = 23 then true else if b = 22 then true else decide (b < 14 + allocCount 8)) =
      decide (b < 14 + allocCount 9)
    have hac9 : (14 + allocCount 9 : Nat) = 24 := rfl
    by_cases h23 : b = 23
    · rw [if_pos h23]
      exact (decide_eq_true (by omega)).symm
    · rw [if_neg h23]
      by_cases h22 : b = 22
      · rw [if_pos h22]
        exact (decide_eq_true (by omega)).symm
      · rw [if_neg h22, decide_eq_decide]
        omega
  · intro j hj
    exact hinv.dirLow j hj
  · exact hinv.dir78
  · intro j h1 h2
    exact hinv.dirHigh j h1 h2
  · show (ensureIndirectState st 1 22).inodes 1 = wInode mode now 9
    rw [ensureIndirectState_inodes_self, hinv.ino1]
    rfl
  · intro l hl
    by_cases hl8 : l = 8
    · subst hl8
      rw [show physB 8 = 23 from rfl]
      have hdd := writeData_disk (allocEntryState (ensureIndirectState st 1 22) 1 8 23) B n 8 23
        hz23
      rw [hdd]
      exact updBlock_self _ _ _
    · have hl7 : l < 8 := by omega
      have hphys : physB l = 14 + l := by
        unfold physB
        rw [if_pos hl7]
      rw [hphys]
      rw [writeDataState_disk_ne _ _ _ _ _ _ (by omega : (14 + l : Nat) ≠ 23)]
      rw [allocEntryState_disk_ne _ _ _ _ (by omega) (by rw [hip2]; omega)]
      rw [ensureIndirectState_disk_ne _ _ _ (by omega) (by omega)]
      have hd := hinv.dataB l hl7
      rw [hphys] at hd
      exact hd
  · intro h9
    rw [writeDataState_disk_ne _ _ _ _ _ _ (by omega : (22:Nat) ≠ 23)]
    rw [hdisk22, ensureIndirectState_disk_self, zeroBlock_eq_indir8]
    exact writeIntLE_indir 8 (by omega) (by omega)
  · intro b hb
    have hb' : 24 ≤ b := hb
    rw [writeDataState_disk_ne _ _ _ _ _ _ (by omega)]
    rw [allocEntryState_disk_ne _ _ _ _ (by omega) (by rw [hip2]; omega)]
    rw [ensureIndirectState_disk_ne _ _ _ (by omega) (by omega)]
    exact hinv.free b (by omega)

/-- Iteration `k > 8`: the indirect block exists at 22; allocate data
block `15 + k` into indirect entry `k - 8` and fill it. -/
theorem winv_step_indhi (p : List Nat) (mode now nowW : Nat) (B : Nat → Nat) (n k : Nat)
    (st : FSState) (fuel fuel2 : Nat)
    (hfuel : fuel = fuel2 + 1) (hn : n ≤ 4227072) (hk : 4096 * k < n) (hk9 : 8 < k)
    (hinv : WInv p mode now B n k st) :
    writeLoopF 1 B n nowW fuel st (4096 * k) (4096 * k) =
      writeLoopF 1 B n nowW fuel2
        (writeDataState (allocEntryState st 1 k (15 + k)) B n (4096 * k) (4096 * k) (15 + k))
        (4096 * k + min 4096 (n - 4096 * k)) (4096 * k + min 4096 (n - 4096 * k)) ∧
    WInv p mode now B n (k + 1)
      (writeDataState (allocEntryState st 1 k (15 + k)) B n (4096 * k) (4096 * k) (15 + k)) := by
  have hacK : allocCount k = k + 1 := allocCount_gt hk9
  have hkK : k < 1032 := by omega
  have hB : BLOCK_SIZE = 4096 := rfl
  have hbidx : 4096 * k / BLOCK_SIZE = k := by
    rw [hB]
    omega
  have hmin : min (BLOCK_SIZE - 4096 * k % BLOCK_SIZE) (n - 4096 * k) =
      min 4096 (n - 4096 * k) := by
    rw [hB]
    omega
  have hkd : ¬ k < DIRECT_BLOCKS := by
    show ¬ k < 8
    omega
  have hip : (st.inodes 1).indirect_pointer = 22 := by
    rw [hinv.ino1]
    show (if k ≤ 8 then 0 else 22) = 22
    rw [if_neg (by omega)]
  have hE : allocEnsureIndirect st 1 = .ok st :=
    allocEnsureIndirect_skip st 1 (by rw [hip]; omega)
  have hdec : decodeInt (st.disk ((st.inodes 1).indirect_pointer)) (k - DIRECT_BLOCKS) = 0 := by
    rw [hip, hinv.indirB hk9]
    rw [show k - DIRECT_BLOCKS = k - 8 from rfl]
    rw [decodeInt_indirBlockFun k (k - 8) (by omega)]
    unfold indirEntry
    rw [if_neg (by omega)]
  have hA : allocIndirectEntry st 1 k = .ok (allocEntryState st 1 k (15 + k)) := by
    apply allocIndirectEntry_alloc st 1 k (15 + k)
      (show k - DIRECT_BLOCKS < 1024 from by show k - 8 < 1024; omega) hdec
      (by omega) (by omega)
    · rw [hinv.bm]
      exact decide_eq_false (by omega)
    · intro b hb1 hb2
      rw [hinv.bm]
      exact decide_eq_true (by omega)
  have halloc : allocForWrite st 1 k = .ok (allocEntryState st 1 k (15 + k)) :=
    allocForWrite_indirect st 1 k st _ hkd hE hA
  have hdisk22 : (allocEntryState st 1 k (15 + k)).disk 22 =
      writeIntLE (st.disk 22) (k - DIRECT_BLOCKS) (15 + k) := by
    have h := allocEntryState_disk_ip st 1 k (15 + k)
    rw [hip] at h
    exact h
  have hres : resolveWrite (allocEntryState st 1 k (15 + k)) 1 k = 15 + k := by
    unfold resolveWrite
    rw [if_neg hkd]
    rw [show (allocEntryState st 1 k (15 + k)).inodes 1 = st.inodes 1 from rfl]
    rw [hip, hdisk22]
    exact decodeInt_writeIntLE_self _ (by omega)
  have hz : (allocEntryState st 1 k (15 + k)).disk (15 + k) = zeroBlock := by
    rw [allocEntryState_disk_ne _ _ _ _ (by omega) (by rw [hip]; omega)]
    exact hinv.free (15 + k) (by omega)
  have hstep := writeLoopF_step 1 B n nowW fuel fuel2 st
    (allocEntryState st 1 k (15 + k)) (4096 * k) (4096 * k) (15 + k) hfuel
    (by omega) (by rw [hbidx]; exact halloc) (by rw [hbidx]; exact hres)
  rw [hmin] at hstep
  refine ⟨hstep, ?_⟩
  have hacK1 : allocCount (k + 1) = k + 2 := by
    rw [allocCount_gt (by omega)]
  constructor
  · show updFun st.bitmap (15 + k) true = _
    rw [hinv.bm]
    funext b
    show (if b = 15 + k then true else decide (b < 14 + allocCount k)) =
      decide (b < 14 + allocCount (k + 1))
    by_cases hb : b = 15 + k
    · rw [if_pos hb]
      exact (decide_eq_true (by omega)).symm
    · rw [if_neg hb, decide_eq_decide]
      omega
  · intro j hj
    exact hinv.dirLow j hj
  · exact hinv.dir78
  · intro j h1 h2
    exact hinv.dirHigh j h1 h2
  · show st.inodes 1 = wInode mode now (k + 1)
    rw [hinv.ino1]
    unfold wInode
    rw [listPtrs_succ_ge8 k (by omega)]
    rw [if_neg (show ¬ k ≤ 8 by omega), if_neg (show ¬ k + 1 ≤ 8 by omega)]
  · intro l hl
    by_cases hlk : l = k
    · subst hlk
      rw [show physB l = 15 + l from by unfold physB; rw [if_neg (by omega)]]
      have hdd := writeData_disk (allocEntryState st 1 l (15 + l)) B n l (15 + l) hz
      rw [hdd]
      exact updBlock_self _ _ _
    · have hlk2 : l < k := by omega
      rw [writeDataState_disk_ne _ _ _ _ _ _ (show physB l ≠ 15 + k from by
        unfold physB
        split <;> omega)]
      rw [allocEntryState_disk_ne _ _ _ _
        (show physB l ≠ 1 from by unfold physB; split <;> omega)
        (show physB l ≠ (st.inodes 1).indirect_pointer from by
          rw [hip]
          unfold physB
          split <;> omega)]
      exact hinv.dataB l hlk2
  · intro h
    rw [writeDataState_disk_ne _ _ _ _ _ _ (by omega : (22:Nat) ≠ 15 + k)]
    rw [hdisk22, hinv.indirB hk9]
    rw [show k - DIRECT_BLOCKS = k - 8 from rfl]
    exact writeIntLE_indir k (by omega) (by omega)
  · intro b hb
    have hb' : 16 + k ≤ b := by
      rw [hacK1] at hb
      omega
    rw [writeDataState_disk_ne _ _ _ _ _ _ (by omega)]
    rw [allocEntryState_disk_ne _ _ _ _ (by omega) (by rw [hip]; omega)]
    exact hinv.free b (by omega)

/-! ### Running the write loop to completion -/

/-- When all `n` bytes are written the loop falls through to
`writeFinish`, and the iteration count equals `ceil(n / 4096)`. -/
theorem writeLoop_finish (p : List Nat) (mode now nowW : Nat) (B : Nat → Nat) (n k : Nat)
    (st : FSState) (fuel : Nat)
    (hinv : WInv p mode now B n k st)
    (hend : n ≤ 4096 * k) (hkc : k = 0 ∨ 4096 * (k - 1) < n) (hfuel : fuel + k = n + 1) :
    ∃ stF, writeLoopF 1 B n nowW fuel st (min (4096 * k) n) (min (4096 * k) n) =
        writeFinish 1 nowW stF n n ∧
      WInv p mode now B n ((n + 4095) / 4096) stF := by
  have hK : k = (n + 4095) / 4096 := by omega
  refine ⟨st, ?_, by rw [← hK]; exact hinv⟩
  obtain ⟨f, rfl⟩ : ∃ f, fuel = f + 1 := ⟨fuel - 1, by omega⟩
  rw [show min (4096 * k) n = n by omega]
  rw [writeLoopF]
  rw [if_neg (Nat.lt_irrefl n)]

/-- The write loop, started after `k` invariant-preserving iterations with
enough fuel, reaches `writeFinish` in a state satisfying the invariant at
`K = ceil(n / 4096)`. -/
theorem writeLoop_run (p : List Nat) (mode now nowW : Nat) (B : Nat → Nat) (n : Nat)
    (hn : n ≤ 4227072) :
    ∀ (m : Nat), ∀ (k : Nat) (st : FSState) (fuel : Nat),
      WInv p mode now B n k st →
      n ≤ 4096 * k + 4096 * m →
      (k = 0 ∨ 4096 * (k - 1) < n) →
      fuel + k = n + 1 →
      ∃ stF, writeLoopF 1 B n nowW fuel st (min (4096 * k) n) (min (4096 * k) n) =
          writeFinish 1 nowW stF n n ∧
        WInv p mode now B n ((n + 4095) / 4096) stF := by
  intro m
  induction m with
  | zero =>
    intro k st fuel hinv hm hkc hfuel
    exact writeLoop_finish p mode now nowW B n k st fuel hinv (by omega) hkc hfuel
  | succ m2 ih =>
    intro k st fuel hinv hm hkc hfuel
    by_cases hend : n ≤ 4096 * k
    · exact writeLoop_finish p mode now nowW B n k st fuel hinv hend hkc hfuel
    · have hkn : 4096 * k < n := by omega
      obtain ⟨f2, rfl⟩ : ∃ f2, fuel = f2 + 1 := ⟨fuel - 1, by omega⟩
      rw [show min (4096 * k) n = 4096 * k by omega]
      have harg : 4096 * k + min 4096 (n - 4096 * k) = min (4096 * (k + 1)) n := by omega
      by_cases hk8 : k < 8
      · obtain ⟨hstep, hinv2⟩ :=
          winv_step_direct p mode now nowW B n k st (f2 + 1) f2 rfl hkn hk8 hinv
        rw [hstep, harg]
        exact ih (k + 1) _ f2 hinv2 (by omega) (Or.inr (by omega)) (by omega)
      · by_cases hk8' : k = 8
        · subst hk8'
          obtain ⟨hstep, hinv2⟩ :=
            winv_step_ind8 p mode now nowW B n st (f2 + 1) f2 rfl hkn hinv
          rw [hstep, harg]
          exact ih 9 _ f2 hinv2 (by omega) (Or.inr (by omega)) (by omega)
        · have hk9 : 8 < k := by omega
          obtain ⟨hstep, hinv2⟩ :=
            winv_step_indhi p mode now nowW B n k st (f2 + 1) f2 rfl hn hkn hk9 hinv
          rw [hstep, harg]
          exact ih (k + 1) _ f2 hinv2 (by omega) (Or.inr (by omega)) (by omega)

/-- `writeFinish` after a full offset-0 write of `n` bytes: size grows to
`n`, the modification time is stamped, and the state is persisted. -/
theorem writeFinish_eval (st : FSState) (mode now now2 n K : Nat)
    (hino : st.inodes 1 = wInode mode now K) :
    writeFinish 1 now2 st n n =
      (save_metadata { st with inodes := updFun st.inodes 1 (wInodeF mode now now2 n K) },
       (n : Int)) := by
  unfold writeFinish
  dsimp only
  by_cases h0 : (st.inodes 1).size < n
  · rw [if_pos h0]
    have hX : updFun (updFun st.inodes 1 { st.inodes 1 with size := n }) 1
        { updFun st.inodes 1 { st.inodes 1 with size := n } 1 with modification_time := now2 } =
        updFun st.inodes 1 (wInodeF mode now now2 n K) := by
      rw [updFun_updFun, updFun_self, hino]
      rfl
    rw [hX]
  · rw [if_neg h0]
    have hn0 : n = 0 := by
      have hs : (st.inodes 1).size = 0 := by rw [hino]; rfl
      omega
    subst hn0
    have hX : updFun st.inodes 1 { st.inodes 1 with modification_time := now2 } =
        updFun st.inodes 1 (wInodeF mode now now2 0 K) := by
      rw [hino]
      rfl
    rw [hX]

/-- `bfs_write` of `n` bytes at offset 0 to the file just created on a
fresh disk: returns `n` and the final state is the persisted invariant
state with the size grown to `n`. -/
theorem bfs_write_fresh (t : Nat) (p : List Nat) (mode now now2 : Nat) (B : Nat → Nat) (n : Nat)
    (hne : p ≠ [46]) (hn : n ≤ 4227072) :
    ∃ stF, bfs_write (save_metadata (createdState t p mode now)) (47 :: p) B n 0 now2 =
        (save_metadata
          { stF with
            inodes := updFun stF.inodes 1 (wInodeF mode now now2 n ((n + 4095) / 4096)) },
         (n : Int)) ∧
      WInv p mode now B n ((n + 4095) / 4096) stF := by
  have hinv0 := winv_base t p mode now B n
  have hfindW : find_file (save_metadata (createdState t p mode now)) p = some 78 :=
    find_file_78 _ p hne hinv0.dirLow hinv0.dir78
  obtain ⟨stF, hloop, hinvF⟩ := writeLoop_run p mode now now2 B n hn 1032 0
    (save_metadata (createdState t p mode now)) (n + 1) hinv0 (by omega) (Or.inl rfl)
    (by omega)
  rw [show min (4096 * 0) n = 0 by omega] at hloop
  refine ⟨stF, ?_, hinvF⟩
  unfold bfs_write
  rw [show List.drop 1 (47 :: p) = p from rfl, hfindW]
  dsimp only
  rw [if_neg (show ¬ MAX_FILE_SIZE < 0 + n from by show ¬ 4227072 < 0 + n; omega)]
  rw [hinv0.dir78]
  rw [show ({ name := p, inode_num := 2 } : DirectoryEntry).inode_num - 1 = 1 from rfl]
  rw [hloop]
  rw [writeFinish_eval stF mode now now2 n ((n + 4095) / 4096) hinvF.ino1]

/-- The read phase of the round trip: reading back `n` bytes at offset 0
from the final write state delivers exactly the buffer. -/
theorem c1_read (st2 : FSState) (p : List Nat) (mode now now2 : Nat) (B : Nat → Nat)
    (n K : Nat)
    (hK : K = (n + 4095) / 4096)
    (hn : n ≤ 4227072)
    (hne : p ≠ [46])
    (hdirLow : ∀ j, j < 78 → st2.directory j = { name := [46], inode_num := 1 })
    (hdir78 : st2.directory 78 = { name := p, inode_num := 2 })
    (hino : st2.inodes 1 = wInodeF mode now now2 n K)
    (hdata : ∀ l, l < K → st2.disk (physB l) = dataBlockFun B n l)
    (hindir : 8 < K → st2.disk 22 = indirBlockFun K) :
    bfs_read st2 (47 :: p) n 0 = ((n : Int), (List.range n).map B) := by
  have hfind : find_file st2 p = some 78 := find_file_78 st2 p hne hdirLow hdir78
  unfold bfs_read
  rw [show List.drop 1 (47 :: p) = p from rfl, hfind]
  dsimp only
  rw [hdir78]
  rw [show ({ name := p, inode_num := 2 } : DirectoryEntry).inode_num - 1 = 1 from rfl]
  rw [hino]
  by_cases hn0 : n = 0
  · subst hn0
    rw [if_pos (show (wInodeF mode now now2 0 K).size ≤ 0 from Nat.le_refl 0)]
    rfl
  · rw [if_neg (show ¬ (wInodeF mode now now2 n K).size ≤ 0 from by show ¬ n ≤ 0; omega)]
    rw [if_neg (show ¬ (wInodeF mode now now2 n K).size < 0 + n from by show ¬ n < 0 + n; omega)]
    have hres : ∀ a, 0 ≤ a → a < 0 + (n - 0) →
        (resolveRead st2 (wInodeF mode now now2 n K) (a / BLOCK_SIZE)).isSome := by
      intro a ha1 ha2
      have han : a < n := by omega
      have hlK : a / 4096 < K := by omega
      unfold resolveRead
      by_cases h8 : a / 4096 < 8
      · rw [if_pos (show a / BLOCK_SIZE < DIRECT_BLOCKS from h8)]
        rfl
      · rw [if_neg (show ¬ a / BLOCK_SIZE < DIRECT_BLOCKS from h8)]
        rw [show (wInodeF mode now now2 n K).indirect_pointer = 22 from by
          show (if K ≤ 8 then 0 else 22) = 22
          rw [if_neg (by omega)]]
        rw [if_neg (by omega : ¬ (22:Nat) = 0)]
        rw [if_neg (show ¬ BLOCK_SIZE / 4 ≤ a / BLOCK_SIZE - DIRECT_BLOCKS from by
          show ¬ 1024 ≤ a / 4096 - 8
          omega)]
        rfl
    rw [readLoopF_spec (n + 1) st2 (wInodeF mode now now2 n K) n 0 0 [] (by omega) (by omega)
      hres]
    show ((n : Int), [] ++ (List.range (n - 0)).map
        (fun j => readSpecByte st2 (wInodeF mode now now2 n K) (0 + j))) = _
    rw [List.nil_append, Nat.sub_zero]
    refine congrArg _ ?_
    apply List.map_congr_left
    intro j hj
    have hjn : j < n := List.mem_range.mp hj
    have hlK : j / 4096 < K := by omega
    show readSpecByte st2 (wInodeF mode now now2 n K) (0 + j) = B j
    rw [Nat.zero_add]
    unfold readSpecByte
    by_cases h8 : j / 4096 < 8
    · have hresolve : resolveRead st2 (wInodeF mode now now2 n K) (j / BLOCK_SIZE) =
          some (14 + j / 4096) := by
        unfold resolveRead
        rw [if_pos (show j / BLOCK_SIZE < DIRECT_BLOCKS from h8)]
        rw [show (wInodeF mode now now2 n K).block_pointers = listPtrs K from rfl]
        rw [show (j : Nat) / BLOCK_SIZE = j / 4096 from rfl]
        rw [listPtrs_getD K h8]
        rw [if_pos hlK]
      rw [hresolve]
      dsimp only
      rw [if_neg (by omega : ¬ 14 + j / 4096 = 0)]
      have hphys : physB (j / 4096) = 14 + j / 4096 := by
        unfold physB
        rw [if_pos h8]
      have hd := hdata (j / 4096) hlK
      rw [hphys] at hd
      rw [show (j : Nat) % BLOCK_SIZE = j % 4096 from rfl, hd]
      unfold dataBlockFun
      rw [if_pos (by omega)]
      congr 1
      omega
    · have hK8 : 8 < K := by omega
      have hresolve : resolveRead st2 (wInodeF mode now now2 n K) (j / BLOCK_SIZE) =
          some (15 + j / 4096) := by
        unfold resolveRead
        rw [if_neg (show ¬ j / BLOCK_SIZE < DIRECT_BLOCKS from h8)]
        rw [show (wInodeF mode now now2 n K).indirect_pointer = 22 from by
          show (if K ≤ 8 then 0 else 22) = 22
          rw [if_neg (by omega)]]
        rw [if_neg (by omega : ¬ (22:Nat) = 0)]
        rw [if_neg (show ¬ BLOCK_SIZE / 4 ≤ j / BLOCK_SIZE - DIRECT_BLOCKS from by
          show ¬ 1024 ≤ j / 4096 - 8
          omega)]
        rw [hindir hK8]
        rw [show (j : Nat) / BLOCK_SIZE - DIRECT_BLOCKS = j / 4096 - 8 from rfl]
        rw [decodeInt_indirBlockFun K (j / 4096 - 8) (by omega)]
        rw [show indirEntry K (j / 4096 - 8) = 15 + j / 4096 from by
          unfold indirEntry
          rw [if_pos (by omega)]
          omega]
      rw [hresolve]
      dsimp only
      rw [if_neg (by omega : ¬ 15 + j / 4096 = 0)]
      have hphys : physB (j / 4096) = 15 + j / 4096 := by
        unfold physB
        rw [if_neg h8]
      have hd := hdata (j / 4096) hlK
      rw [hphys] at hd
      rw [show (j : Nat) % BLOCK_SIZE = j % 4096 from rfl, hd]
      unfold dataBlockFun
      rw [if_pos (by omega)]
      congr 1
      omega

/-- C1: on a freshly formatted and mounted disk, for any name `p` (fitting
the 47-byte name limit and distinct from the clobbered `"."` entries) and
any buffer `B` of length `n ≤ MAX_FILE_SIZE`, the sequence
`create("/p"); write("/p", B, n, 0); read("/p", n, 0)` succeeds: create
returns 0, write returns `n`, and read returns `n` together with exactly
the bytes `B 0, …, B (n-1)`. -/
theorem c1_roundtrip (t : Nat) (p : List Nat) (mode now now2 : Nat) (B : Nat → Nat) (n : Nat)
    (hp : p.length ≤ 47) (hne : p ≠ [46]) (hn : n ≤ MAX_FILE_SIZE) :
    (bfs_create (freshMounted t) (47 :: p) mode now).2 = 0 ∧
    (bfs_write (bfs_create (freshMounted t) (47 :: p) mode now).1 (47 :: p) B n 0 now2).2 =
      (n : Int) ∧
    bfs_read (bfs_write (bfs_create (freshMounted t) (47 :: p) mode now).1
        (47 :: p) B n 0 now2).1 (47 :: p) n 0 = ((n : Int), (List.range n).map B) := by
  have hn' : n ≤ 4227072 := hn
  obtain ⟨stF, hw, hinvF⟩ := bfs_write_fresh t p mode now now2 B n hne hn'
  rw [create_fresh t p mode now hp hne]
  refine ⟨rfl, ?_, ?_⟩
  · show (bfs_write (save_metadata (createdState t p mode now)) (47 :: p) B n 0 now2).2 =
      (n : Int)
    rw [hw]
  · show bfs_read (bfs_write (save_metadata (createdState t p mode now))
        (47 :: p) B n 0 now2).1 (47 :: p) n 0 = ((n : Int), (List.range n).map B)
    rw [hw]
    apply c1_read _ p mode now now2 B n ((n + 4095) / 4096) rfl hn' hne
    · intro j hj
      exact hinvF.dirLow j hj
    · exact hinvF.dir78
    · show updFun stF.inodes 1 (wInodeF mode now now2 n ((n + 4095) / 4096)) 1 = _
      rw [updFun_self]
    · intro l hl
      rw [save_metadata_disk_out _ (Or.inr (Or.inr (show (14:Nat) ≤ physB l from by
        unfold physB
        split <;> omega)))]
      exact hinvF.dataB l hl
    · intro h8
      rw [save_metadata_disk_out _ (Or.inr (Or.inr (by omega)))]
      exact hinvF.indirB h8

theorem c1_roundtrip_witness :
    ([97] : List Nat).length ≤ 47 ∧ ([97] : List Nat) ≠ [46] ∧ 2 ≤ MAX_FILE_SIZE ∧
    ((bfs_create (freshMounted 0) [47, 97] 420 5).2 = 0 ∧
     (bfs_write (bfs_create (freshMounted 0) [47, 97] 420 5).1 [47, 97]
        (fun k => k + 1) 2 0 7).2 = (2 : Int) ∧
     bfs_read (bfs_write (bfs_create (freshMounted 0) [47, 97] 420 5).1 [47, 97]
        (fun k => k + 1) 2 0 7).1 [47, 97] 2 0 =
       ((2 : Int), (List.range 2).map (fun k => k + 1))) :=
  ⟨by decide, by decide, by decide,
   c1_roundtrip 0 [97] 420 5 7 (fun k => k + 1) 2 (by decide) (by decide) (by decide)⟩

end BFS
